import Mathlib

/-!
Formal model of the Game-Of-Life concurrent grid engine
(`src-tauri/src/cell.rs`, `src-tauri/src/board.rs`, `src-tauri/src/main.rs`).

Modelling conventions:

* `usize` is modelled as `Nat` with the explicit bound `2 ^ 64` where the
  source's checked arithmetic makes the bound observable (`checked_add`,
  `checked_sub`); `isize` is modelled as `Int`.
* `Uuid::new_v4()` fresh ids are modelled as deterministic fresh naturals:
  `fill_cells` assigns id `posId height x y` to the cell created at `(x, y)`.
  Distinctness of the ids of simultaneously live cells is all the source
  relies on.
* `Arc<Cell>` / `Weak<Cell>` handles are modelled by the cell id; upgrading a
  weak handle is a lookup in the board's id map (`Board.get_cell`), which
  succeeds exactly while a cell with that id is owned by the board.
* The concurrent maps (`DashMap`, `HashMap`) are modelled as association
  lists: `insert` overwrites the value at an existing key in place,
  `entry(..).or_insert_with(..)` keeps the first value.
* The data-parallel `par_iter().for_each(..)` loops are modelled as left
  folds: every such loop in the source writes only to state owned by the
  current iteration and reads only state no iteration writes, so any
  sequential order computes the unique parallel outcome.
-/

namespace GameOfLife

/-- Lookup in an association list, the model of `HashMap`/`DashMap` `get`. -/
def lookupAssoc {κ β : Type} [DecidableEq κ] (m : List (κ × β)) (k : κ) : Option β :=
  (m.find? (fun p => decide (p.1 = k))).map (fun p => p.2)

/-- `HashMap`/`DashMap` `insert`: overwrite the value at an existing key in
place, otherwise append the new binding. -/
def insertAssoc {κ β : Type} [DecidableEq κ] (m : List (κ × β)) (k : κ) (v : β) :
    List (κ × β) :=
  if (m.find? (fun p => decide (p.1 = k))).isSome then
    m.map (fun p => if p.1 = k then (k, v) else p)
  else m ++ [(k, v)]

/-- `DashMap` `entry(k).or_insert_with(v)`: keep the existing binding if the
key is present, otherwise append the new one. -/
def insertKeep {κ β : Type} [DecidableEq κ] (m : List (κ × β)) (k : κ) (v : β) :
    List (κ × β) :=
  if (m.find? (fun p => decide (p.1 = k))).isSome then m else m ++ [(k, v)]

/-- `usize::checked_add` (64-bit). -/
def checked_add (a b : Nat) : Option Nat :=
  if a + b < 2 ^ 64 then some (a + b) else none

/-- `usize::checked_sub`. -/
def checked_sub (a b : Nat) : Option Nat :=
  if b ≤ a then some (a - b) else none

/-- The deterministic fresh id assigned to the cell created at `(x, y)` of a
grid with the given height (model of `Uuid::new_v4()`; see module comment). -/
def posId (height x y : Nat) : Nat := x * height + y

/-- A cell (`cell.rs`): id, alive flag (behind a per-cell `Mutex` in the
source), immutable coordinates, and the neighbor map from absolute neighbor
coordinate to a weak handle on the neighbor, modelled as the neighbor's id. -/
structure Cell where
  id : Nat
  alive : Bool
  x : Nat
  y : Nat
  neighbors : List ((Nat × Nat) × Nat)
deriving DecidableEq, Repr

/-- `Cell::new(alive, x, y)`; the fresh uuid is passed explicitly. -/
def Cell.new (alive : Bool) (x y : Nat) (id : Nat) : Cell :=
  { id := id, alive := alive, x := x, y := y, neighbors := [] }

/-- `Cell::set_alive`. -/
def Cell.set_alive (c : Cell) (alive : Bool) : Cell :=
  { c with alive := alive }

/-- `Cell::add_neighbor`: insert or overwrite the adjacency entry at the
neighbor coordinate, storing a weak handle (the neighbor's id). -/
def Cell.add_neighbor (c : Cell) (neighbor_x neighbor_y : Nat) (neighbor : Nat) : Cell :=
  { c with neighbors := insertAssoc c.neighbors (neighbor_x, neighbor_y) neighbor }

/-- `Cell::offset_position`: `None` when applying the offset to the unsigned
position would go negative or overflow `usize`. -/
def Cell.offset_position (position : Nat) (offset : Int) : Option Nat :=
  if offset < 0 then checked_sub position offset.natAbs
  else checked_add position offset.toNat

/-- The board (`board.rs`): dimensions, generation counter, the id → cell
map and the position → id map. -/
structure Board where
  width : Nat
  height : Nat
  generation : Nat
  cells : List (Nat × Cell)
  position_to_id : List ((Nat × Nat) × Nat)
deriving DecidableEq, Repr

/-- `Board::new`. -/
def Board.new : Board :=
  { width := 0, height := 0, generation := 0, cells := [], position_to_id := [] }

/-- `Board::set_size`. -/
def Board.set_size (b : Board) (width height : Nat) : Board :=
  { b with width := width, height := height }

/-- `Board::increment_generation`. -/
def Board.increment_generation (b : Board) : Board :=
  { b with generation := b.generation + 1 }

/-- `Board::reset_generation`. -/
def Board.reset_generation (b : Board) : Board :=
  { b with generation := 0 }

/-- `Board::add_cell`: `self.cells.insert(cell.id, cell)`. -/
def Board.add_cell (b : Board) (cell : Cell) : Board :=
  { b with cells := insertAssoc b.cells cell.id cell }

/-- `Board::get_cell`: lookup by id, `None` on an unknown id. -/
def Board.get_cell (b : Board) (id : Nat) : Option Cell :=
  lookupAssoc b.cells id

/-- `self.position_to_id.get(&(x, y))`. -/
def Board.posLookup (b : Board) (xy : Nat × Nat) : Option Nat :=
  lookupAssoc b.position_to_id xy

/-- Mutation of the cell with the given id through a shared handle
(`Arc<Cell>`): in the model, rewrite that cell's entry of the id map. -/
def Board.updateCell (b : Board) (id : Nat) (f : Cell → Cell) : Board :=
  { b with cells := b.cells.map (fun p => if p.1 = id then (p.1, f p.2) else p) }

/-- The coordinates visited by the source's nested
`(0..width) × (0..height)` parallel loops. -/
def gridCoords (width height : Nat) : List (Nat × Nat) :=
  (List.range width).flatMap (fun x => (List.range height).map (fun y => (x, y)))

/-- `Board::fill_cells`: for every in-range `(x, y)` create a dead cell with a
fresh id, record it in `position_to_id` and in `cells`. -/
def Board.fill_cells (b : Board) : Board :=
  (gridCoords b.width b.height).foldl
    (fun b2 xy =>
      Board.add_cell
        { b2 with position_to_id := insertAssoc b2.position_to_id xy (posId b.height xy.1 xy.2) }
        (Cell.new false xy.1 xy.2 (posId b.height xy.1 xy.2)))
    b

/-- `Board::clear_cells`. -/
def Board.clear_cells (b : Board) : Board :=
  { b with cells := [] }

/-- `Board::reset`: reset the generation and discard all cells (the position
map is not cleared by the source). -/
def Board.reset (b : Board) : Board :=
  b.reset_generation.clear_cells

/-- The eight Moore offsets of `Board::compute_neighbors`, in source order. -/
def neighbor_offsets : List (Int × Int) :=
  [(-1, -1), (0, -1), (1, -1), (-1, 0), (1, 0), (-1, 1), (0, 1), (1, 1)]

/-- One offset attempt of `Board::compute_neighbors`: apply
`Cell::offset_position` to both coordinates and keep the candidate only when
both succeed and it is inside the `width × height` bounds. -/
def validOffsetPos (width height x y : Nat) (off : Int × Int) : Option (Nat × Nat) :=
  match Cell.offset_position x off.1, Cell.offset_position y off.2 with
  | some nx, some ny => if nx < width ∧ ny < height then some (nx, ny) else none
  | _, _ => none

/-- One offset iteration of `Board::compute_neighbors` for the cell
`cell_id` located at `(x, y)`: if the candidate coordinate is valid and the
position and id maps resolve it, register it in that cell's adjacency map. -/
def Board.registerNeighborStep (width height cell_id x y : Nat) (b2 : Board)
    (off : Int × Int) : Board :=
  match validOffsetPos width height x y off with
  | some nxy =>
    match b2.posLookup nxy with
    | some neighbor_id =>
      match b2.get_cell neighbor_id with
      | some _ =>
        b2.updateCell cell_id (fun c => c.add_neighbor nxy.1 nxy.2 neighbor_id)
      | none => b2
    | none => b2
  | none => b2

/-- The body of `Board::compute_neighbors` for one grid coordinate `xy`:
look up the cell at that position and register every resolvable in-bounds
Moore neighbor in that cell's own adjacency map. -/
def Board.addNeighborsAt (width height : Nat) (b : Board) (xy : Nat × Nat) : Board :=
  match b.posLookup xy with
  | none => b
  | some cell_id =>
    match b.get_cell cell_id with
    | none => b
    | some _ =>
      neighbor_offsets.foldl
        (Board.registerNeighborStep width height cell_id xy.1 xy.2) b

/-- `Board::compute_neighbors`: the parallel loop over all grid coordinates,
modelled as a fold (each iteration writes only to its own cell). -/
def Board.compute_neighbors (b : Board) : Board :=
  (gridCoords b.width b.height).foldl (Board.addNeighborsAt b.width b.height) b

/-- `Board::create_board`. -/
def Board.create_board (b : Board) (width height : Nat) : Board :=
  (((b.reset).set_size width height).fill_cells).compute_neighbors

/-- `Board::kill_board`: set every cell dead, then reset the generation. -/
def Board.kill_board (b : Board) : Board :=
  Board.reset_generation
    { b with cells := b.cells.map (fun p => (p.1, Cell.set_alive p.2 false)) }

/-- `Cell::get_neighbors`: the currently-resolvable neighbors (upgrading the
weak handle is a lookup in the board's id map; failures are dropped). -/
def Cell.get_neighbors (b : Board) (c : Cell) : List Cell :=
  c.neighbors.filterMap (fun p => b.get_cell p.2)

/-- `Cell::count_alive_neighbors`: resolvable neighbors whose flag is true. -/
def Cell.count_alive_neighbors (b : Board) (c : Cell) : Nat :=
  ((Cell.get_neighbors b c).filter (fun n => n.alive)).length

/-- `Cell::compute_future_state`: the life rule applied to the cell's own
alive flag and its count of resolvable alive neighbors. -/
def Cell.compute_future_state (b : Board) (c : Cell) : Bool :=
  match c.alive, Cell.count_alive_neighbors b c with
  | true, 2 => true
  | true, 3 => true
  | false, 3 => true
  | _, _ => false

/-- `Board::get_relevant_cells`: every alive cell, keyed by its map key, plus
every resolvable neighbor of an alive cell, keyed by its id (kept, not
overwritten, when already present). -/
def Board.get_relevant_cells (b : Board) : List (Nat × Cell) :=
  b.cells.foldl
    (fun acc q =>
      if q.2.alive then
        (Cell.get_neighbors b q.2).foldl
          (fun acc2 n => insertKeep acc2 n.id n)
          (insertAssoc acc q.1 q.2)
      else acc)
    []

/-- `Board::compute_next_generation`: the read-only phase, one
`(id, future state)` pair per relevant cell. -/
def Board.compute_next_generation (b : Board) : List (Nat × Bool) :=
  (b.get_relevant_cells).map (fun q => (q.2.id, Cell.compute_future_state b q.2))

/-- One commit of `Board::update_next_generation`: locate the cell by id and
set its flag through the shared handle; an absent id is skipped. -/
def Board.commitPair (b : Board) (p : Nat × Bool) : Board :=
  match b.get_cell p.1 with
  | some _ => b.updateCell p.1 (fun c => Cell.set_alive c p.2)
  | none => b

/-- The per-pair commits of `Board::update_next_generation` (the parallel
loop over the pairs, modelled as a fold). -/
def Board.applyPairs (b : Board) (next_gen : List (Nat × Bool)) : Board :=
  next_gen.foldl Board.commitPair b

/-- `Board::update_next_generation`: commit all pairs, then increment the
generation counter. -/
def Board.update_next_generation (b : Board) (next_gen : List (Nat × Bool)) : Board :=
  (b.applyPairs next_gen).increment_generation

/-- The `update_cell_state` command of `main.rs`: returns the updated board
together with the `(id, success)` reply. -/
def update_cell_state (b : Board) (id : Nat) (new_state : Bool) : Board × (Nat × Bool) :=
  match b.get_cell id with
  | some cell =>
    (b.updateCell id (fun c => Cell.set_alive c new_state), (cell.id, true))
  | none => (b, (id, false))

/-- Well-formedness of the id map: keys are distinct and each cell is stored
under its own id. Established by construction, relied on throughout. -/
def WF (b : Board) : Prop :=
  (b.cells.map Prod.fst).Nodup ∧ ∀ q ∈ b.cells, q.2.id = q.1

/-- Symmetry of the resolvable adjacency: whenever a stored cell resolves a
neighbor, that neighbor resolves some cell with the original key back. -/
def Symm (b : Board) : Prop :=
  ∀ q ∈ b.cells, ∀ n ∈ Cell.get_neighbors b q.2,
    ∃ m ∈ Cell.get_neighbors b n, m.id = q.1

/-- The specification of the relevant set: an id is relevant exactly when it
keys an alive cell or is the id of a resolvable neighbor of an alive cell. -/
def relevantKeySpec (b : Board) (id : Nat) : Prop :=
  ∃ q ∈ b.cells, q.2.alive = true ∧
    (q.1 = id ∨ ∃ n ∈ Cell.get_neighbors b q.2, n.id = id)

/-- Modelled from the spec: "evaluating the life rule on every cell of the
grid" — one `(id, future state)` pair for every cell of the board, the
reference point of the relevant-set refinement claim. -/
def fullGridNextPairs (b : Board) : List (Nat × Bool) :=
  b.cells.map (fun q => (q.1, Cell.compute_future_state b q.2))

/-- The per-offset effect of neighbor registration on the registering cell's
own adjacency map. -/
def neighborSpecStep (w h x y : Nat) (acc : List ((Nat × Nat) × Nat)) (off : Int × Int) :
    List ((Nat × Nat) × Nat) :=
  match validOffsetPos w h x y off with
  | some nxy => insertAssoc acc nxy (posId h nxy.1 nxy.2)
  | none => acc

/-- The adjacency map `compute_neighbors` builds for the cell at `(x, y)` of
a fully filled `w × h` grid. -/
def neighborEntries (w h x y : Nat) : List ((Nat × Nat) × Nat) :=
  neighbor_offsets.foldl (neighborSpecStep w h x y) []

/-- The cell stored at `xy` of a filled `w × h` grid, its adjacency map built
exactly when `xy ∈ S`. -/
def builtCellVal (w h : Nat) (S : List (Nat × Nat)) (xy : Nat × Nat) : Cell :=
  { id := posId h xy.1 xy.2, alive := false, x := xy.1, y := xy.2,
    neighbors := if xy ∈ S then neighborEntries w h xy.1 xy.2 else [] }

/-- The id-map entry of the cell at `xy` during construction. -/
def builtFn (w h : Nat) (S : List (Nat × Nat)) (xy : Nat × Nat) : Nat × Cell :=
  (posId h xy.1 xy.2, builtCellVal w h S xy)

/-- As `builtFn`, with the adjacency map of the single cell at `xy0`
overridden. -/
def builtWithFn (w h : Nat) (S : List (Nat × Nat)) (xy0 : Nat × Nat)
    (nb : List ((Nat × Nat) × Nat)) (xy : Nat × Nat) : Nat × Cell :=
  (posId h xy.1 xy.2,
    if xy = xy0 then { builtCellVal w h S xy with neighbors := nb }
    else builtCellVal w h S xy)

/-- The board state during neighbor-graph construction: the cells of the
coordinates in `S` already carry their adjacency map, the others none. -/
def builtBoard (w h g0 : Nat) (P : List ((Nat × Nat) × Nat)) (S : List (Nat × Nat)) :
    Board :=
  { width := w, height := h, generation := g0,
    cells := (gridCoords w h).map (builtFn w h S),
    position_to_id := P }

/-- As `builtBoard`, with the adjacency map of the single cell at `xy0`
overridden (the intermediate states of one `addNeighborsAt` call). -/
def builtBoardWith (w h g0 : Nat) (P : List ((Nat × Nat) × Nat)) (S : List (Nat × Nat))
    (xy0 : Nat × Nat) (nb : List ((Nat × Nat) × Nat)) : Board :=
  { width := w, height := h, generation := g0,
    cells := (gridCoords w h).map (builtWithFn w h S xy0 nb),
    position_to_id := P }

/-- The fold of `fill_cells`, generalized over the coordinate list. -/
def fillFold (h0 : Nat) (L : List (Nat × Nat)) (s : Board) : Board :=
  L.foldl
    (fun b2 xy =>
      Board.add_cell
        { b2 with position_to_id := insertAssoc b2.position_to_id xy (posId h0 xy.1 xy.2) }
        (Cell.new false xy.1 xy.2 (posId h0 xy.1 xy.2)))
    s

/-- The fold of `fill_cells` restricted to the position index. -/
def posFold (h0 : Nat) (L : List (Nat × Nat)) (m : List ((Nat × Nat) × Nat)) :
    List ((Nat × Nat) × Nat) :=
  L.foldl (fun m2 xy => insertAssoc m2 xy (posId h0 xy.1 xy.2)) m

/-- The corner cell `(0, 0)` of a freshly built 3 × 3 board. -/
def cornerCell3 : Cell :=
  { id := 0, alive := false, x := 0, y := 0,
    neighbors := [((1, 0), 3), ((0, 1), 1), ((1, 1), 4)] }

/-- The flag a key ends up with after all commits of a pair list: the last
pair for that key wins (`none` when the key never occurs). -/
def lastFlag : List (Nat × Bool) → Nat → Option Bool
  | [], _ => none
  | p :: rest, k =>
    match lastFlag rest k with
    | some f => some f
    | none => if p.1 = k then some p.2 else none

/-- Apply an optional committed flag to a cell. -/
def setAliveOpt (o : Option Bool) (c : Cell) : Cell :=
  match o with
  | some f => Cell.set_alive c f
  | none => c

/-- The fold of `get_relevant_cells`, generalized over the starting
accumulator and over the portion of the cell list still to process. -/
def relevantFold (b : Board) (acc : List (Nat × Cell)) (l : List (Nat × Cell)) :
    List (Nat × Cell) :=
  l.foldl
    (fun acc q =>
      if q.2.alive then
        (Cell.get_neighbors b q.2).foldl
          (fun acc2 n => insertKeep acc2 n.id n)
          (insertAssoc acc q.1 q.2)
      else acc)
    acc

instance (b : Board) : Decidable (WF b) := by
  unfold WF; infer_instance

instance (b : Board) : Decidable (Symm b) := by
  unfold Symm; infer_instance

instance (b : Board) (id : Nat) : Decidable (relevantKeySpec b id) := by
  unfold relevantKeySpec; infer_instance

/-- The life rule as a table of `(alive, count)`. -/
lemma lifeRule_table (a : Bool) (n : Nat) :
    (match a, n with
     | true, 2 => true
     | true, 3 => true
     | false, 3 => true
     | _, _ => false) = true ↔
      ((a = true ∧ (n = 2 ∨ n = 3)) ∨ (a = false ∧ n = 3)) := by
  rcases a <;> rcases n with _ | _ | _ | _ | n <;> simp

/-- C1: `computeFutureState` returns true exactly on `(true, 2)`, `(true, 3)`
and `(false, 3)`, and false on every other `(alive, aliveNeighborCount)`
pair; it depends only on the cell's alive flag and its count of resolvable
alive neighbors. -/
theorem computeFutureState_rule (b : Board) (c : Cell) :
    Cell.compute_future_state b c = true ↔
      ((c.alive = true ∧
          (Cell.count_alive_neighbors b c = 2 ∨ Cell.count_alive_neighbors b c = 3)) ∨
       (c.alive = false ∧ Cell.count_alive_neighbors b c = 3)) := by
  unfold Cell.compute_future_state
  exact lifeRule_table c.alive (Cell.count_alive_neighbors b c)

/-- C9: `offsetPosition` returns the offset position exactly when applying
the signed delta to the unsigned position neither goes below zero nor
overflows the unsigned (64-bit) range, and no-value otherwise. -/
theorem offset_position_spec (pos : Nat) (delta : Int)
    (hpos : pos < 2 ^ 64) (hlo : -(2 ^ 63) ≤ delta) (hhi : delta < 2 ^ 63) :
    Cell.offset_position pos delta =
      if 0 ≤ (pos : Int) + delta ∧ (pos : Int) + delta < 2 ^ 64 then
        some ((pos : Int) + delta).toNat
      else none := by
  unfold Cell.offset_position checked_sub checked_add
  split_ifs with h1 h2 h3 <;>
    first
      | rfl
      | (simp only [Option.some.injEq]; omega)
      | (exfalso; omega)

/-- Witness for C9 at `pos = 5`, `delta = -7`: the subtraction would go
below zero, so the result is no-value. -/
theorem offset_position_spec_witness :
    (5 : Nat) < 2 ^ 64 ∧ -(2 ^ 63) ≤ (-7 : Int) ∧ (-7 : Int) < 2 ^ 63 ∧
    Cell.offset_position 5 (-7) =
      (if 0 ≤ ((5 : Nat) : Int) + (-7) ∧ ((5 : Nat) : Int) + (-7) < 2 ^ 64 then
        some (((5 : Nat) : Int) + (-7)).toNat
      else none) :=
  ⟨by decide, by decide, by decide,
    offset_position_spec 5 (-7) (by decide) (by decide) (by decide)⟩

lemma map_eq_self_of {α : Type} (l : List α) (f : α → α) (h : ∀ a ∈ l, f a = a) :
    l.map f = l := by
  induction l with
  | nil => rfl
  | cons a t ih =>
    rw [List.map_cons, h a (by simp), ih (fun x hx => h x (by simp [hx]))]

lemma map_congr_mem {α β : Type} (l : List α) (f g : α → β)
    (h : ∀ a ∈ l, f a = g a) : l.map f = l.map g := by
  induction l with
  | nil => rfl
  | cons a t ih =>
    rw [List.map_cons, List.map_cons, h a (by simp),
      ih (fun x hx => h x (by simp [hx]))]

lemma lastFlag_eq_none (pairs : List (Nat × Bool)) (k : Nat)
    (h : k ∉ pairs.map Prod.fst) : lastFlag pairs k = none := by
  induction pairs with
  | nil => rfl
  | cons p rest ih =>
    have h1 : p.1 ≠ k := by
      intro he; exact h (by simp [he])
    have h2 : k ∉ rest.map Prod.fst := fun hk => h (by simp [hk])
    simp [lastFlag, ih h2, h1]

lemma lastFlag_cons_ne (p : Nat × Bool) (rest : List (Nat × Bool)) (k : Nat)
    (h : p.1 ≠ k) : lastFlag (p :: rest) k = lastFlag rest k := by
  simp only [lastFlag]
  cases lastFlag rest k <;> simp [h]

lemma lastFlag_of_nodup_mem (pairs : List (Nat × Bool)) (k : Nat) (f : Bool)
    (hnd : (pairs.map Prod.fst).Nodup) (hmem : (k, f) ∈ pairs) :
    lastFlag pairs k = some f := by
  induction pairs with
  | nil => simp at hmem
  | cons p rest ih =>
    rw [List.map_cons, List.nodup_cons] at hnd
    rcases List.mem_cons.mp hmem with he | hm
    · have hk : p.1 = k := by rw [← he]
      have hrest : k ∉ rest.map Prod.fst := by rw [← hk]; exact hnd.1
      simp [lastFlag, lastFlag_eq_none rest k hrest, hk, ← he]
    · simp [lastFlag, ih hnd.2 hm]

lemma set_alive_set_alive (c : Cell) (a1 a2 : Bool) :
    Cell.set_alive (Cell.set_alive c a1) a2 = Cell.set_alive c a2 := rfl

/-- `commitPair` rewrites exactly the entries keyed by the pair's id (there
is nothing to rewrite when the id is absent). -/
lemma commitPair_eq (b : Board) (p : Nat × Bool) :
    b.commitPair p =
      { b with cells :=
          b.cells.map (fun q => if q.1 = p.1 then (q.1, Cell.set_alive q.2 p.2) else q) } := by
  unfold Board.commitPair
  cases h : b.get_cell p.1 with
  | some c => rfl
  | none =>
    have hnone : ∀ q ∈ b.cells, q.1 ≠ p.1 := by
      intro q hq
      unfold Board.get_cell lookupAssoc at h
      cases hf : b.cells.find? (fun r => decide (r.1 = p.1)) with
      | some r => rw [hf] at h; simp at h
      | none =>
        have := List.find?_eq_none.mp hf q hq
        simpa using this
    have : b.cells.map (fun q => if q.1 = p.1 then (q.1, Cell.set_alive q.2 p.2) else q)
        = b.cells := by
      apply map_eq_self_of
      intro q hq
      simp [hnone q hq]
    rw [this]

/-- The accumulated effect of all commits: every cell's flag becomes the last
committed flag for its key, everything else is untouched. -/
lemma applyPairs_eq (pairs : List (Nat × Bool)) (b : Board) :
    b.applyPairs pairs =
      { b with cells := b.cells.map (fun q => (q.1, setAliveOpt (lastFlag pairs q.1) q.2)) } := by
  induction pairs generalizing b with
  | nil =>
    show b = _
    have : b.cells.map (fun q => (q.1, setAliveOpt (lastFlag [] q.1) q.2)) = b.cells := by
      apply map_eq_self_of; intro q hq; rfl
    rw [this]
  | cons p rest ih =>
    show (b.commitPair p).applyPairs rest = _
    rw [ih, commitPair_eq]
    congr 1
    rw [List.map_map]
    apply map_congr_mem
    intro q hq
    by_cases hk : q.1 = p.1
    · have hflag : lastFlag (p :: rest) q.1 =
          match lastFlag rest q.1 with
          | some f => some f
          | none => some p.2 := by
        simp only [lastFlag]
        cases lastFlag rest q.1 with
        | some f => rfl
        | none => rw [if_pos hk.symm]
      simp only [Function.comp_apply, if_pos hk, hflag]
      cases lastFlag rest q.1 with
      | some f => rfl
      | none => rfl
    · simp only [Function.comp_apply, if_neg hk]
      rw [lastFlag_cons_ne p rest q.1 (fun he => hk he.symm)]

/-- `update_next_generation` in closed form. -/
lemma update_next_generation_eq (b : Board) (pairs : List (Nat × Bool)) :
    b.update_next_generation pairs =
      { b with generation := b.generation + 1,
               cells := b.cells.map (fun q => (q.1, setAliveOpt (lastFlag pairs q.1) q.2)) } := by
  unfold Board.update_next_generation Board.increment_generation
  rw [applyPairs_eq]

lemma get_cell_mk (w h g : Nat) (cs : List (Nat × Cell))
    (ps : List ((Nat × Nat) × Nat)) (id : Nat) :
    Board.get_cell (Board.mk w h g cs ps) id = lookupAssoc cs id := rfl

/-- `find?` by key commutes with a key-preserving map. -/
lemma find?_key_map {κ β : Type} [DecidableEq κ] (l : List (κ × β))
    (g : κ × β → κ × β) (hg : ∀ q, (g q).1 = q.1) (k : κ) :
    (l.map g).find? (fun p => decide (p.1 = k)) =
      (l.find? (fun p => decide (p.1 = k))).map g := by
  induction l with
  | nil => rfl
  | cons a t ih =>
    by_cases h : a.1 = k
    · rw [List.map_cons, List.find?_cons_of_pos _ (by simp [hg, h]),
        List.find?_cons_of_pos _ (by simp [h])]
      rfl
    · rw [List.map_cons, List.find?_cons_of_neg _ (by simp [hg, h]),
        List.find?_cons_of_neg _ (by simp [h]), ih]

lemma get_cell_some_elim (b : Board) (id : Nat) (c : Cell)
    (h : b.get_cell id = some c) :
    ∃ q, q ∈ b.cells ∧ q.1 = id ∧ q.2 = c ∧
      b.cells.find? (fun p => decide (p.1 = id)) = some q := by
  unfold Board.get_cell lookupAssoc at h
  cases hf : b.cells.find? (fun p => decide (p.1 = id)) with
  | none => rw [hf] at h; simp at h
  | some q =>
    rw [hf] at h
    refine ⟨q, List.mem_of_find?_eq_some hf, ?_, ?_, rfl⟩
    · simpa using List.find?_some hf
    · simpa using h

/-- C5: a commit never alters any cell whose id is absent from the input
pairs; such a cell is returned bit-for-bit unchanged by the id lookup. -/
theorem updateNextGeneration_frame (b : Board) (pairs : List (Nat × Bool))
    (id : Nat) (c : Cell) (hc : b.get_cell id = some c)
    (habs : id ∉ pairs.map Prod.fst) :
    (b.update_next_generation pairs).get_cell id = some c := by
  obtain ⟨q, hqmem, hq1, hq2, hqfind⟩ := get_cell_some_elim b id c hc
  rw [update_next_generation_eq, get_cell_mk]
  unfold lookupAssoc
  rw [find?_key_map b.cells (fun q => (q.1, setAliveOpt (lastFlag pairs q.1) q.2))
    (fun q => rfl) id, hqfind]
  simp [hq1, lastFlag_eq_none pairs id habs, setAliveOpt, hq2]

/-- Witness for C5 on a concrete 2 × 2 board: cell 0 is not in the pair list
`[(1, true)]` and is unchanged by the commit. -/
theorem updateNextGeneration_frame_witness :
    (Board.new.create_board 2 2).get_cell 0 =
      some { id := 0, alive := false, x := 0, y := 0,
             neighbors := [((1, 0), 2), ((0, 1), 1), ((1, 1), 3)] } ∧
    (0 : Nat) ∉ ([((1 : Nat), true)].map Prod.fst) ∧
    ((Board.new.create_board 2 2).update_next_generation [(1, true)]).get_cell 0 =
      some { id := 0, alive := false, x := 0, y := 0,
             neighbors := [((1, 0), 2), ((0, 1), 1), ((1, 1), 3)] } :=
  ⟨by decide, by decide,
    updateNextGeneration_frame _ _ _ _ (by decide) (by decide)⟩

/-- C6: every `updateNextGeneration` call increments the generation counter
by exactly 1, whatever the pair list. -/
theorem updateNextGeneration_increments_generation (b : Board)
    (pairs : List (Nat × Bool)) :
    (b.update_next_generation pairs).generation = b.generation + 1 := by
  rw [update_next_generation_eq]

/-- C10: a pair whose id names no existing cell is silently skipped — the
remaining pairs are committed exactly as without it and the generation still
increments by 1. -/
theorem updateNextGeneration_skips_unknown (b : Board) (id0 : Nat) (f : Bool)
    (pairs : List (Nat × Bool)) (h : b.get_cell id0 = none) :
    b.update_next_generation ((id0, f) :: pairs) = b.update_next_generation pairs ∧
    (b.update_next_generation ((id0, f) :: pairs)).generation = b.generation + 1 := by
  constructor
  · unfold Board.update_next_generation
    have : b.applyPairs ((id0, f) :: pairs) = (b.commitPair (id0, f)).applyPairs pairs := rfl
    rw [this]
    have hstep : b.commitPair (id0, f) = b := by
      unfold Board.commitPair
      rw [h]
    rw [hstep]
  · rw [update_next_generation_eq]

/-- Witness for C10: committing `[(99, true)]` on a 2 × 2 board (which has no
cell 99) equals committing the empty list, and the generation becomes 1. -/
theorem updateNextGeneration_skips_unknown_witness :
    (Board.new.create_board 2 2).get_cell 99 = none ∧
    (Board.new.create_board 2 2).update_next_generation [(99, true)] =
      (Board.new.create_board 2 2).update_next_generation [] ∧
    ((Board.new.create_board 2 2).update_next_generation [(99, true)]).generation =
      (Board.new.create_board 2 2).generation + 1 :=
  ⟨by decide, updateNextGeneration_skips_unknown _ 99 true [] (by decide)⟩

/-- C7: `killBoard` is idempotent, leaves every cell dead with generation 0,
and changes neither the dimensions, the cell set, nor the adjacency graph. -/
theorem killBoard_idempotent (b : Board) :
    b.kill_board.kill_board = b.kill_board ∧
    (b.kill_board).generation = 0 ∧
    (∀ q ∈ b.kill_board.cells, q.2.alive = false) ∧
    b.kill_board.width = b.width ∧
    b.kill_board.height = b.height ∧
    b.kill_board.position_to_id = b.position_to_id ∧
    b.kill_board.cells.map (fun q => (q.1, q.2.id, q.2.x, q.2.y, q.2.neighbors)) =
      b.cells.map (fun q => (q.1, q.2.id, q.2.x, q.2.y, q.2.neighbors)) := by
  refine ⟨?_, rfl, ?_, rfl, rfl, rfl, ?_⟩
  · unfold Board.kill_board Board.reset_generation
    congr 1
    rw [List.map_map]
    apply map_congr_mem
    intro q hq
    rfl
  · intro q hq
    unfold Board.kill_board Board.reset_generation at hq
    simp only [List.mem_map] at hq
    obtain ⟨r, hr, hrq⟩ := hq
    rw [← hrq]
    rfl
  · unfold Board.kill_board Board.reset_generation
    rw [List.map_map]
    apply map_congr_mem
    intro q hq
    rfl

/-- Witness for C7 on a concrete 2 × 2 board with one alive cell. -/
theorem killBoard_idempotent_witness :
    ((Board.new.create_board 2 2).updateCell 0 (fun c =>
        c.set_alive true)).kill_board.kill_board =
      ((Board.new.create_board 2 2).updateCell 0 (fun c =>
        c.set_alive true)).kill_board :=
  (killBoard_idempotent ((Board.new.create_board 2 2).updateCell 0 (fun c =>
    c.set_alive true))).1

/-- C8: `updateCellState` never fails: on an unknown id it returns
`(id, false)` and leaves the whole board unchanged (`getCell` reporting the
absence rather than raising); on a known id it sets that cell's flag to the
requested value, returns `(id, true)`, and touches no other cell. -/
theorem updateCellState_spec (b : Board) (id : Nat) (f : Bool) (hwf : WF b) :
    (b.get_cell id = none → update_cell_state b id f = (b, (id, false))) ∧
    (∀ c, b.get_cell id = some c →
      update_cell_state b id f =
        (b.updateCell id (fun c2 => Cell.set_alive c2 f), (id, true)) ∧
      (update_cell_state b id f).1.get_cell id = some (Cell.set_alive c f) ∧
      ∀ id2, id2 ≠ id → (update_cell_state b id f).1.get_cell id2 = b.get_cell id2) := by
  constructor
  · intro h
    unfold update_cell_state
    rw [h]
  · intro c hc
    obtain ⟨q, hqmem, hq1, hq2, hqfind⟩ := get_cell_some_elim b id c hc
    have hcid : c.id = id := by
      rw [← hq2, hwf.2 q hqmem, hq1]
    have hmain : update_cell_state b id f =
        (b.updateCell id (fun c2 => Cell.set_alive c2 f), (id, true)) := by
      unfold update_cell_state
      rw [hc]
      simp [hcid]
    refine ⟨hmain, ?_, ?_⟩
    · rw [hmain]
      unfold Board.updateCell
      rw [get_cell_mk]
      unfold lookupAssoc
      rw [find?_key_map _ _ (fun q => by by_cases h : q.1 = id <;> simp [h]) id, hqfind]
      simp [hq1, hq2]
    · intro id2 hne
      rw [hmain]
      unfold Board.updateCell
      rw [get_cell_mk]
      unfold Board.get_cell lookupAssoc
      rw [find?_key_map _ _ (fun q => by by_cases h : q.1 = id <;> simp [h]) id2]
      cases hf2 : b.cells.find? (fun p => decide (p.1 = id2)) with
      | none => rfl
      | some q2 =>
        have hq21 : q2.1 = id2 := by simpa using List.find?_some hf2
        have hne2 : q2.1 ≠ id := by rw [hq21]; exact hne
        simp [hne2]

lemma keys_overwrite {κ β : Type} [DecidableEq κ] (m : List (κ × β)) (k : κ) (v : β) :
    (m.map (fun p => if p.1 = k then (k, v) else p)).map Prod.fst = m.map Prod.fst := by
  rw [List.map_map]
  apply map_congr_mem
  intro q hq
  by_cases h : q.1 = k <;> simp [h]

lemma keys_mem_of_isSome {κ β : Type} [DecidableEq κ] (m : List (κ × β)) (k : κ)
    (h : (m.find? (fun p => decide (p.1 = k))).isSome = true) :
    k ∈ m.map Prod.fst := by
  obtain ⟨q, hq, hpq⟩ := List.find?_isSome.mp h
  simp only [decide_eq_true_eq] at hpq
  rw [List.mem_map]
  exact ⟨q, hq, hpq⟩

lemma keys_not_mem_of_not_isSome {κ β : Type} [DecidableEq κ] (m : List (κ × β)) (k : κ)
    (h : ¬ (m.find? (fun p => decide (p.1 = k))).isSome = true) :
    k ∉ m.map Prod.fst := by
  intro hk
  apply h
  rw [List.find?_isSome]
  obtain ⟨q, hq, hq1⟩ := List.mem_map.mp hk
  exact ⟨q, hq, by simp [hq1]⟩

lemma mem_keys_insertAssoc {κ β : Type} [DecidableEq κ] (m : List (κ × β)) (k k' : κ) (v : β) :
    k' ∈ (insertAssoc m k v).map Prod.fst ↔ k' ∈ m.map Prod.fst ∨ k' = k := by
  unfold insertAssoc
  split_ifs with h
  · rw [keys_overwrite]
    constructor
    · exact Or.inl
    · rintro (h1 | h1)
      · exact h1
      · exact h1 ▸ keys_mem_of_isSome m k h
  · simp [List.map_append]

lemma mem_keys_insertKeep {κ β : Type} [DecidableEq κ] (m : List (κ × β)) (k k' : κ) (v : β) :
    k' ∈ (insertKeep m k v).map Prod.fst ↔ k' ∈ m.map Prod.fst ∨ k' = k := by
  unfold insertKeep
  split_ifs with h
  · constructor
    · exact Or.inl
    · rintro (h1 | h1)
      · exact h1
      · exact h1 ▸ keys_mem_of_isSome m k h
  · simp [List.map_append]

lemma nodup_keys_insertAssoc {κ β : Type} [DecidableEq κ] (m : List (κ × β)) (k : κ) (v : β)
    (hnd : (m.map Prod.fst).Nodup) : ((insertAssoc m k v).map Prod.fst).Nodup := by
  unfold insertAssoc
  split_ifs with h
  · rw [keys_overwrite]
    exact hnd
  · rw [List.map_append]
    simp only [List.map_cons, List.map_nil]
    rw [List.nodup_append]
    refine ⟨hnd, List.nodup_singleton k, ?_⟩
    intro a ha hb
    have hak : a = k := by simpa using hb
    rw [hak] at ha
    exact keys_not_mem_of_not_isSome m k h ha

lemma nodup_keys_insertKeep {κ β : Type} [DecidableEq κ] (m : List (κ × β)) (k : κ) (v : β)
    (hnd : (m.map Prod.fst).Nodup) : ((insertKeep m k v).map Prod.fst).Nodup := by
  unfold insertKeep
  split_ifs with h
  · exact hnd
  · rw [List.map_append]
    simp only [List.map_cons, List.map_nil]
    rw [List.nodup_append]
    refine ⟨hnd, List.nodup_singleton k, ?_⟩
    intro a ha hb
    have hak : a = k := by simpa using hb
    rw [hak] at ha
    exact keys_not_mem_of_not_isSome m k h ha

lemma mem_insertAssoc_elim {κ β : Type} [DecidableEq κ] (m : List (κ × β)) (k : κ) (v : β)
    (q : κ × β) (hq : q ∈ insertAssoc m k v) : q ∈ m ∨ q = (k, v) := by
  unfold insertAssoc at hq
  split_ifs at hq with h
  · obtain ⟨r, hr, hrq⟩ := List.mem_map.mp hq
    by_cases hk : r.1 = k
    · right
      rw [← hrq, if_pos hk]
    · left
      rw [← hrq, if_neg hk]
      exact hr
  · rcases List.mem_append.mp hq with h1 | h1
    · exact Or.inl h1
    · exact Or.inr (by simpa using h1)

lemma mem_insertKeep_elim {κ β : Type} [DecidableEq κ] (m : List (κ × β)) (k : κ) (v : β)
    (q : κ × β) (hq : q ∈ insertKeep m k v) : q ∈ m ∨ q = (k, v) := by
  unfold insertKeep at hq
  split_ifs at hq with h
  · exact Or.inl hq
  · rcases List.mem_append.mp hq with h1 | h1
    · exact Or.inl h1
    · exact Or.inr (by simpa using h1)

lemma lookup_of_mem_nodup {κ β : Type} [DecidableEq κ] (m : List (κ × β)) (q : κ × β)
    (hnd : (m.map Prod.fst).Nodup) (hq : q ∈ m) : lookupAssoc m q.1 = some q.2 := by
  induction m with
  | nil => simp at hq
  | cons a t ih =>
    rw [List.map_cons, List.nodup_cons] at hnd
    rcases List.mem_cons.mp hq with he | hm
    · unfold lookupAssoc
      rw [he, List.find?_cons_of_pos _ (by simp)]
      rfl
    · have hne : ¬ a.1 = q.1 := by
        intro hh
        exact hnd.1 (hh ▸ List.mem_map_of_mem Prod.fst hm)
      unfold lookupAssoc
      rw [List.find?_cons_of_neg _ (by simpa using hne)]
      exact ih hnd.2 hm

lemma get_cell_of_mem_nodup (b : Board) (q : Nat × Cell) (hwf : WF b) (hq : q ∈ b.cells) :
    b.get_cell q.1 = some q.2 :=
  lookup_of_mem_nodup b.cells q hwf.1 hq

/-- A resolvable neighbor is stored in the board's id map under its own id. -/
lemma neighbor_entry (b : Board) (hwf : WF b) {c n : Cell}
    (hn : n ∈ Cell.get_neighbors b c) :
    (n.id, n) ∈ b.cells ∧ b.get_cell n.id = some n := by
  unfold Cell.get_neighbors at hn
  rw [List.mem_filterMap] at hn
  obtain ⟨p, _, hres⟩ := hn
  obtain ⟨q, hqmem, hq1, hq2, _⟩ := get_cell_some_elim b p.2 n hres
  have hid : n.id = p.2 := by rw [← hq2, hwf.2 q hqmem, hq1]
  have hqn : q = (n.id, n) := by
    rw [Prod.ext_iff]
    exact ⟨by rw [hq1, hid], hq2⟩
  exact ⟨hqn ▸ hqmem, by rw [hid]; exact hres⟩

lemma get_relevant_cells_eq_fold (b : Board) :
    b.get_relevant_cells = relevantFold b [] b.cells := rfl

lemma mem_keys_neighborFold (ns : List Cell) (acc : List (Nat × Cell)) (k : Nat) :
    k ∈ ((ns.foldl (fun acc2 n => insertKeep acc2 n.id n) acc).map Prod.fst) ↔
      k ∈ acc.map Prod.fst ∨ ∃ n ∈ ns, n.id = k := by
  induction ns generalizing acc with
  | nil => simp
  | cons n t ih =>
    rw [List.foldl_cons, ih, mem_keys_insertKeep]
    constructor
    · rintro ((h | h) | ⟨n', hn', hid⟩)
      · exact Or.inl h
      · exact Or.inr ⟨n, List.mem_cons_self n t, h.symm⟩
      · exact Or.inr ⟨n', List.mem_cons_of_mem n hn', hid⟩
    · rintro (h | ⟨n', hn', hid⟩)
      · exact Or.inl (Or.inl h)
      · rcases List.mem_cons.mp hn' with he | hm
        · exact Or.inl (Or.inr (by rw [← hid, he]))
        · exact Or.inr ⟨n', hm, hid⟩

lemma mem_keys_relevantFold (b : Board) (l : List (Nat × Cell)) (acc : List (Nat × Cell))
    (k : Nat) :
    k ∈ (relevantFold b acc l).map Prod.fst ↔
      k ∈ acc.map Prod.fst ∨
        ∃ q ∈ l, q.2.alive = true ∧
          (q.1 = k ∨ ∃ n ∈ Cell.get_neighbors b q.2, n.id = k) := by
  induction l generalizing acc with
  | nil => simp [relevantFold]
  | cons q t ih =>
    have hstep : relevantFold b acc (q :: t) =
        relevantFold b
          (if q.2.alive then
            (Cell.get_neighbors b q.2).foldl
              (fun acc2 n => insertKeep acc2 n.id n)
              (insertAssoc acc q.1 q.2)
          else acc) t := rfl
    rw [hstep, ih]
    cases hq : q.2.alive with
    | false =>
      rw [if_neg (by simp)]
      constructor
      · rintro (h | h)
        · exact Or.inl h
        · exact Or.inr (by
            obtain ⟨r, hr, hra, hrk⟩ := h
            exact ⟨r, List.mem_cons_of_mem q hr, hra, hrk⟩)
      · rintro (h | ⟨r, hr, hra, hrk⟩)
        · exact Or.inl h
        · rcases List.mem_cons.mp hr with he | hm
          · rw [he] at hra
            rw [hq] at hra
            exact absurd hra (by simp)
          · exact Or.inr ⟨r, hm, hra, hrk⟩
    | true =>
      rw [if_pos (by simp [hq])]
      rw [mem_keys_neighborFold, mem_keys_insertAssoc]
      constructor
      · rintro (((h | h) | ⟨n, hn, hid⟩) | ⟨r, hr, hra, hrk⟩)
        · exact Or.inl h
        · exact Or.inr ⟨q, List.mem_cons_self q t, hq, Or.inl h.symm⟩
        · exact Or.inr ⟨q, List.mem_cons_self q t, hq, Or.inr ⟨n, hn, hid⟩⟩
        · exact Or.inr ⟨r, List.mem_cons_of_mem q hr, hra, hrk⟩
      · rintro (h | ⟨r, hr, hra, hrk⟩)
        · exact Or.inl (Or.inl (Or.inl h))
        · rcases List.mem_cons.mp hr with he | hm
          · rcases hrk with hk | ⟨n, hn, hid⟩
            · exact Or.inl (Or.inl (Or.inr (by rw [← hk, he])))
            · exact Or.inl (Or.inr ⟨n, by rw [← he]; exact hn, hid⟩)
          · exact Or.inr ⟨r, hm, hra, hrk⟩

/-- Entries of the relevant set are stored cells keyed by their own id, and
the keys are distinct. -/
lemma relevantFold_good (b : Board) (hwf : WF b) (l : List (Nat × Cell))
    (hl : ∀ q ∈ l, q ∈ b.cells) (acc : List (Nat × Cell))
    (hgood : ∀ q ∈ acc, q.2.id = q.1 ∧ b.get_cell q.1 = some q.2)
    (hnd : (acc.map Prod.fst).Nodup) :
    (∀ q ∈ relevantFold b acc l, q.2.id = q.1 ∧ b.get_cell q.1 = some q.2) ∧
      ((relevantFold b acc l).map Prod.fst).Nodup := by
  induction l generalizing acc with
  | nil => exact ⟨hgood, hnd⟩
  | cons q t ih =>
    have hstep : relevantFold b acc (q :: t) =
        relevantFold b
          (if q.2.alive then
            (Cell.get_neighbors b q.2).foldl
              (fun acc2 n => insertKeep acc2 n.id n)
              (insertAssoc acc q.1 q.2)
          else acc) t := rfl
    rw [hstep]
    cases hq : q.2.alive with
    | false =>
      rw [if_neg (by simp)]
      exact ih (fun r hr => hl r (List.mem_cons_of_mem q hr)) acc hgood hnd
    | true =>
      rw [if_pos (by simp)]
      have hqcell : q ∈ b.cells := hl q (List.mem_cons_self q t)
      have hbase : ∀ r ∈ insertAssoc acc q.1 q.2, r.2.id = r.1 ∧ b.get_cell r.1 = some r.2 := by
        intro r hr
        rcases mem_insertAssoc_elim acc q.1 q.2 r hr with h1 | h1
        · exact hgood r h1
        · rw [h1]
          exact ⟨hwf.2 q hqcell, get_cell_of_mem_nodup b q hwf hqcell⟩
      have hbasend : ((insertAssoc acc q.1 q.2).map Prod.fst).Nodup :=
        nodup_keys_insertAssoc acc q.1 q.2 hnd
      have hinner :
          (∀ r ∈ (Cell.get_neighbors b q.2).foldl
              (fun acc2 n => insertKeep acc2 n.id n) (insertAssoc acc q.1 q.2),
            r.2.id = r.1 ∧ b.get_cell r.1 = some r.2) ∧
          (((Cell.get_neighbors b q.2).foldl
              (fun acc2 n => insertKeep acc2 n.id n)
              (insertAssoc acc q.1 q.2)).map Prod.fst).Nodup := by
        have hgen : ∀ (ns : List Cell), (∀ n ∈ ns, n ∈ Cell.get_neighbors b q.2) →
            ∀ (acc2 : List (Nat × Cell)),
            (∀ r ∈ acc2, r.2.id = r.1 ∧ b.get_cell r.1 = some r.2) →
            (acc2.map Prod.fst).Nodup →
            (∀ r ∈ ns.foldl (fun acc2 n => insertKeep acc2 n.id n) acc2,
              r.2.id = r.1 ∧ b.get_cell r.1 = some r.2) ∧
            ((ns.foldl (fun acc2 n => insertKeep acc2 n.id n) acc2).map Prod.fst).Nodup := by
          intro ns
          induction ns with
          | nil => exact fun _ acc2 h1 h2 => ⟨h1, h2⟩
          | cons n nt iht =>
            intro hns acc2 h1 h2
            rw [List.foldl_cons]
            apply iht (fun n' hn' => hns n' (List.mem_cons_of_mem n hn'))
            · intro r hr
              rcases mem_insertKeep_elim acc2 n.id n r hr with hc | hc
              · exact h1 r hc
              · rw [hc]
                have := neighbor_entry b hwf (hns n (List.mem_cons_self n nt))
                exact ⟨rfl, this.2⟩
            · exact nodup_keys_insertKeep acc2 n.id n h2
        exact hgen (Cell.get_neighbors b q.2) (fun n hn => hn)
          (insertAssoc acc q.1 q.2) hbase hbasend
      exact ih (fun r hr => hl r (List.mem_cons_of_mem q hr)) _ hinner.1 hinner.2

lemma relevant_good (b : Board) (hwf : WF b) :
    (∀ q ∈ b.get_relevant_cells, q.2.id = q.1 ∧ b.get_cell q.1 = some q.2) ∧
      ((b.get_relevant_cells).map Prod.fst).Nodup := by
  rw [get_relevant_cells_eq_fold]
  exact relevantFold_good b hwf b.cells (fun q hq => hq) [] (by simp) (by simp)

lemma relevant_keys_spec (b : Board) (k : Nat) :
    k ∈ (b.get_relevant_cells).map Prod.fst ↔ relevantKeySpec b k := by
  rw [get_relevant_cells_eq_fold, mem_keys_relevantFold]
  simp [relevantKeySpec]

lemma relevantFold_all_dead (b : Board) (l : List (Nat × Cell)) (acc : List (Nat × Cell))
    (h : ∀ q ∈ l, q.2.alive = false) : relevantFold b acc l = acc := by
  induction l generalizing acc with
  | nil => rfl
  | cons q t ih =>
    have hstep : relevantFold b acc (q :: t) =
        relevantFold b
          (if q.2.alive then
            (Cell.get_neighbors b q.2).foldl
              (fun acc2 n => insertKeep acc2 n.id n)
              (insertAssoc acc q.1 q.2)
          else acc) t := rfl
    rw [hstep, if_neg (by simp [h q (List.mem_cons_self q t)])]
    exact ih acc (fun r hr => h r (List.mem_cons_of_mem q hr))

lemma keys_compute_next (b : Board) (hwf : WF b) :
    (b.compute_next_generation).map Prod.fst = (b.get_relevant_cells).map Prod.fst := by
  unfold Board.compute_next_generation
  rw [List.map_map]
  apply map_congr_mem
  intro q hq
  exact ((relevant_good b hwf).1 q hq).1

/-- C3: the read-only phase returns one pair per relevant id (each exactly
once, an id being relevant exactly when it is an alive cell or a resolvable
neighbor of one), the flag being the future state computed from the board as
it stood at the start of the phase; on an all-dead board it returns `[]`. -/
theorem computeNextGeneration_spec (b : Board) (hwf : WF b) :
    ((b.compute_next_generation).map Prod.fst).Nodup ∧
    (∀ k, k ∈ (b.compute_next_generation).map Prod.fst ↔ relevantKeySpec b k) ∧
    (∀ p ∈ b.compute_next_generation,
      ∃ c, b.get_cell p.1 = some c ∧ p.2 = Cell.compute_future_state b c) ∧
    ((∀ q ∈ b.cells, q.2.alive = false) → b.compute_next_generation = []) := by
  refine ⟨?_, ?_, ?_, ?_⟩
  · rw [keys_compute_next b hwf]
    exact (relevant_good b hwf).2
  · intro k
    rw [keys_compute_next b hwf]
    exact relevant_keys_spec b k
  · intro p hp
    unfold Board.compute_next_generation at hp
    obtain ⟨q, hq, hqp⟩ := List.mem_map.mp hp
    have hgood := (relevant_good b hwf).1 q hq
    refine ⟨q.2, ?_, ?_⟩
    · rw [← hqp]
      show b.get_cell q.2.id = some q.2
      rw [hgood.1]
      exact hgood.2
    · rw [← hqp]
  · intro h
    unfold Board.compute_next_generation
    rw [get_relevant_cells_eq_fold, relevantFold_all_dead b b.cells [] h]
    rfl

/-- Witness for C3 on a 3 × 3 board whose center cell is alive. -/
theorem computeNextGeneration_spec_witness :
    WF ((Board.new.create_board 3 3).updateCell 4 (fun c => c.set_alive true)) ∧
    ((((Board.new.create_board 3 3).updateCell 4
        (fun c => c.set_alive true)).compute_next_generation).map Prod.fst).Nodup :=
  ⟨by decide,
    (computeNextGeneration_spec ((Board.new.create_board 3 3).updateCell 4
      (fun c => c.set_alive true)) (by decide)).1⟩

/-- A cell excluded from the relevant set is dead, has no resolvable alive
neighbor, and its future state is dead. -/
lemma excluded_cell_dead (b : Board) (hwf : WF b) (hsym : Symm b)
    (q : Nat × Cell) (hq : q ∈ b.cells) (hns : ¬ relevantKeySpec b q.1) :
    q.2.alive = false ∧ Cell.count_alive_neighbors b q.2 = 0 ∧
      Cell.compute_future_state b q.2 = false := by
  have halive : q.2.alive = false := by
    cases ha : q.2.alive with
    | false => rfl
    | true => exact absurd ⟨q, hq, ha, Or.inl rfl⟩ hns
  have hcount : Cell.count_alive_neighbors b q.2 = 0 := by
    unfold Cell.count_alive_neighbors
    rw [List.length_eq_zero, List.filter_eq_nil_iff]
    intro n hn
    simp only [Bool.not_eq_true]
    cases hna : n.alive with
    | false => rfl
    | true =>
      exfalso
      apply hns
      obtain ⟨m, hm, hmid⟩ := hsym q hq n hn
      exact ⟨(n.id, n), (neighbor_entry b hwf hn).1, hna, Or.inr ⟨m, hm, hmid⟩⟩
  refine ⟨halive, hcount, ?_⟩
  unfold Cell.compute_future_state
  rw [halive, hcount]

/-- C2: the relevant-set optimization is sound — every excluded cell is dead
with zero alive neighbors, hence dead next generation too — so committing
the relevant-set pairs yields exactly the same board as committing the life
rule evaluated on every cell of the grid. -/
theorem relevantSet_refinement (b : Board) (hwf : WF b) (hsym : Symm b) :
    (∀ q ∈ b.cells, ¬ relevantKeySpec b q.1 →
      q.2.alive = false ∧ Cell.count_alive_neighbors b q.2 = 0 ∧
        Cell.compute_future_state b q.2 = false) ∧
    b.update_next_generation b.compute_next_generation =
      b.update_next_generation (fullGridNextPairs b) := by
  constructor
  · exact fun q hq h => excluded_cell_dead b hwf hsym q hq h
  · rw [update_next_generation_eq, update_next_generation_eq]
    have hcells : b.cells.map
        (fun q => (q.1, setAliveOpt (lastFlag b.compute_next_generation q.1) q.2)) =
        b.cells.map
        (fun q => (q.1, setAliveOpt (lastFlag (fullGridNextPairs b) q.1) q.2)) := by
      apply map_congr_mem
      intro q hq
      have hP2 : lastFlag (fullGridNextPairs b) q.1 =
          some (Cell.compute_future_state b q.2) := by
        apply lastFlag_of_nodup_mem
        · have : (fullGridNextPairs b).map Prod.fst = b.cells.map Prod.fst := by
            unfold fullGridNextPairs
            rw [List.map_map]
            rfl
          rw [this]
          exact hwf.1
        · exact List.mem_map_of_mem (fun q => (q.1, Cell.compute_future_state b q.2)) hq
      by_cases hrel : relevantKeySpec b q.1
      · have hk : q.1 ∈ (b.get_relevant_cells).map Prod.fst :=
          (relevant_keys_spec b q.1).mpr hrel
        obtain ⟨r, hr, hr1⟩ := List.mem_map.mp hk
        have hgood := (relevant_good b hwf).1 r hr
        have hrq : r.2 = q.2 := by
          have h1 : b.get_cell q.1 = some q.2 := get_cell_of_mem_nodup b q hwf hq
          have h2 := hgood.2
          rw [hr1, h1] at h2
          exact (Option.some.injEq _ _).mp h2.symm
        have hP1 : lastFlag b.compute_next_generation q.1 =
            some (Cell.compute_future_state b q.2) := by
          apply lastFlag_of_nodup_mem
          · rw [keys_compute_next b hwf]
            exact (relevant_good b hwf).2
          · unfold Board.compute_next_generation
            have h2 : (r.2.id, Cell.compute_future_state b r.2) ∈
                List.map (fun r => (r.2.id, Cell.compute_future_state b r.2))
                  b.get_relevant_cells :=
              List.mem_map_of_mem _ hr
            rw [hgood.1, hr1, hrq] at h2
            exact h2
        rw [hP1, hP2]
      · have hk : q.1 ∉ (b.compute_next_generation).map Prod.fst := by
          rw [keys_compute_next b hwf]
          intro hmem
          exact hrel ((relevant_keys_spec b q.1).mp hmem)
        rw [lastFlag_eq_none _ _ hk, hP2]
        have hd := excluded_cell_dead b hwf hsym q hq hrel
        simp only [setAliveOpt]
        rw [hd.2.2]
        have hsa : Cell.set_alive q.2 false = q.2 := by
          rw [← hd.1]
          rfl
        rw [hsa]
    rw [hcells]

/-- Witness for C2 on a 3 × 3 board whose center cell is alive. -/
theorem relevantSet_refinement_witness :
    WF ((Board.new.create_board 3 3).updateCell 4 (fun c => c.set_alive true)) ∧
    Symm ((Board.new.create_board 3 3).updateCell 4 (fun c => c.set_alive true)) ∧
    ((Board.new.create_board 3 3).updateCell 4
        (fun c => c.set_alive true)).update_next_generation
      (((Board.new.create_board 3 3).updateCell 4
        (fun c => c.set_alive true)).compute_next_generation) =
    ((Board.new.create_board 3 3).updateCell 4
        (fun c => c.set_alive true)).update_next_generation
      (fullGridNextPairs ((Board.new.create_board 3 3).updateCell 4
        (fun c => c.set_alive true))) :=
  ⟨by decide, by decide,
    (relevantSet_refinement ((Board.new.create_board 3 3).updateCell 4
      (fun c => c.set_alive true)) (by decide) (by decide)).2⟩

lemma posId_inj (h x1 y1 x2 y2 : Nat) (hy1 : y1 < h) (hy2 : y2 < h)
    (he : posId h x1 y1 = posId h x2 y2) : x1 = x2 ∧ y1 = y2 := by
  unfold posId at he
  have h0 : 0 < h := lt_of_le_of_lt (Nat.zero_le y1) hy1
  have hm : y1 = y2 := by
    have e1 : (x1 * h + y1) % h = y1 := by
      rw [Nat.mul_comm x1 h, Nat.mul_add_mod, Nat.mod_eq_of_lt hy1]
    have e2 : (x2 * h + y2) % h = y2 := by
      rw [Nat.mul_comm x2 h, Nat.mul_add_mod, Nat.mod_eq_of_lt hy2]
    rw [← e1, ← e2, he]
  refine ⟨?_, hm⟩
  have hx : x1 * h = x2 * h := by omega
  exact Nat.eq_of_mul_eq_mul_right h0 hx

lemma mem_gridCoords (w h : Nat) (xy : Nat × Nat) :
    xy ∈ gridCoords w h ↔ xy.1 < w ∧ xy.2 < h := by
  unfold gridCoords
  rw [List.mem_flatMap]
  constructor
  · rintro ⟨a, ha, hb⟩
    rw [List.mem_map] at hb
    obtain ⟨y, hy, hxy⟩ := hb
    rw [← hxy]
    exact ⟨by simpa using List.mem_range.mp ha, by simpa using List.mem_range.mp hy⟩
  · rintro ⟨h1, h2⟩
    exact ⟨xy.1, List.mem_range.mpr h1,
      List.mem_map.mpr ⟨xy.2, List.mem_range.mpr h2, by simp⟩⟩

lemma nodup_gridCoords (w h : Nat) : (gridCoords w h).Nodup := by
  unfold gridCoords
  induction w with
  | zero => simp
  | succ n ih =>
    rw [List.range_succ, List.flatMap_append, List.nodup_append]
    refine ⟨ih, ?_, ?_⟩
    · have hb : ([n] : List Nat).flatMap (fun x => (List.range h).map fun y => (x, y)) =
          (List.range h).map (fun y => (n, y)) := by simp
      rw [hb]
      apply List.Nodup.map_on
      · intro a _ b _ he
        simpa using congrArg Prod.snd he
      · exact List.nodup_range h
    · intro p hp hp2
      rw [List.mem_flatMap] at hp
      obtain ⟨a, ha, hpa⟩ := hp
      rw [List.mem_map] at hpa
      obtain ⟨y, _, hy⟩ := hpa
      have hlt : a < n := List.mem_range.mp ha
      rw [List.mem_flatMap] at hp2
      obtain ⟨a2, ha2, hpa2⟩ := hp2
      rw [List.mem_map] at hpa2
      obtain ⟨y2, _, hy2⟩ := hpa2
      have ha2n : a2 = n := by simpa using ha2
      rw [← hy] at hy2
      have hfst : a2 = a := by simpa using congrArg Prod.fst hy2
      omega

lemma nodup_pid_grid (w h : Nat) :
    ((gridCoords w h).map (fun xy => posId h xy.1 xy.2)).Nodup := by
  apply List.Nodup.map_on
  · intro a ha b hb he
    have h1 := (mem_gridCoords w h a).mp ha
    have h2 := (mem_gridCoords w h b).mp hb
    obtain ⟨hx, hy⟩ := posId_inj h a.1 a.2 b.1 b.2 h1.2 h2.2 he
    exact Prod.ext_iff.mpr ⟨hx, hy⟩
  · exact nodup_gridCoords w h

lemma offset_position_some_elim (p : Nat) (d : Int) (r : Nat)
    (h : Cell.offset_position p d = some r) : (r : Int) = p + d := by
  unfold Cell.offset_position checked_sub checked_add at h
  split_ifs at h with h1 h2 h3 <;> (simp only [Option.some.injEq] at h; omega)

lemma validOffsetPos_some_elim (w h x y : Nat) (off : Int × Int) (nxy : Nat × Nat)
    (hv : validOffsetPos w h x y off = some nxy) :
    (nxy.1 : Int) = x + off.1 ∧ (nxy.2 : Int) = y + off.2 ∧ nxy.1 < w ∧ nxy.2 < h := by
  unfold validOffsetPos at hv
  cases hx : Cell.offset_position x off.1 with
  | none => rw [hx] at hv; simp at hv
  | some nx =>
    cases hy : Cell.offset_position y off.2 with
    | none => rw [hx, hy] at hv; simp at hv
    | some ny =>
      rw [hx, hy] at hv
      have hv2 : (if nx < w ∧ ny < h then some ((nx, ny) : Nat × Nat) else none) =
          some nxy := hv
      split_ifs at hv2 with hb
      · simp only [Option.some.injEq] at hv2
        have e1 := offset_position_some_elim x off.1 nx hx
        have e2 := offset_position_some_elim y off.2 ny hy
        rw [← hv2]
        exact ⟨e1, e2, hb.1, hb.2⟩

lemma validOffsetPos_isSome_iff (w h x y : Nat) (off : Int × Int)
    (hw : w < 2 ^ 64) (hh : h < 2 ^ 64) :
    (validOffsetPos w h x y off).isSome = true ↔
      (0 ≤ (x : Int) + off.1 ∧ (x : Int) + off.1 < w ∧
        0 ≤ (y : Int) + off.2 ∧ (y : Int) + off.2 < h) := by
  constructor
  · intro hs
    obtain ⟨nxy, hnxy⟩ := Option.isSome_iff_exists.mp hs
    obtain ⟨e1, e2, l1, l2⟩ := validOffsetPos_some_elim w h x y off nxy hnxy
    refine ⟨by omega, by omega, by omega, by omega⟩
  · rintro ⟨h1, h2, h3, h4⟩
    have hxval : Cell.offset_position x off.1 = some ((x : Int) + off.1).toNat := by
      unfold Cell.offset_position checked_sub checked_add
      split_ifs with h5 h6 h7 <;>
        first
          | (simp only [Option.some.injEq]; omega)
          | (exfalso; omega)
    have hyval : Cell.offset_position y off.2 = some ((y : Int) + off.2).toNat := by
      unfold Cell.offset_position checked_sub checked_add
      split_ifs with h5 h6 h7 <;>
        first
          | (simp only [Option.some.injEq]; omega)
          | (exfalso; omega)
    have hred : validOffsetPos w h x y off =
        if ((x : Int) + off.1).toNat < w ∧ ((y : Int) + off.2).toNat < h then
          some (((x : Int) + off.1).toNat, ((y : Int) + off.2).toNat)
        else none := by
      unfold validOffsetPos
      rw [hxval, hyval]
    rw [hred, if_pos ⟨by omega, by omega⟩]
    rfl

lemma validB_true (w h x y : Nat) (dx dy : Int) (hw : w < 2 ^ 64) (hh : h < 2 ^ 64)
    (hc : 0 ≤ (x : Int) + dx ∧ (x : Int) + dx < w ∧
      0 ≤ (y : Int) + dy ∧ (y : Int) + dy < h) :
    (validOffsetPos w h x y (dx, dy)).isSome = true :=
  (validOffsetPos_isSome_iff w h x y (dx, dy) hw hh).mpr (by simpa using hc)

lemma validB_false (w h x y : Nat) (dx dy : Int) (hw : w < 2 ^ 64) (hh : h < 2 ^ 64)
    (hc : ¬ (0 ≤ (x : Int) + dx ∧ (x : Int) + dx < w ∧
      0 ≤ (y : Int) + dy ∧ (y : Int) + dy < h)) :
    (validOffsetPos w h x y (dx, dy)).isSome = false := by
  rw [Bool.eq_false_iff]
  intro hs
  exact hc (by simpa using (validOffsetPos_isSome_iff w h x y (dx, dy) hw hh).mp hs)

lemma insertAssoc_of_fresh {κ β : Type} [DecidableEq κ] (m : List (κ × β)) (k : κ) (v : β)
    (h : k ∉ m.map Prod.fst) : insertAssoc m k v = m ++ [(k, v)] := by
  unfold insertAssoc
  rw [if_neg (fun hs => h (keys_mem_of_isSome m k hs))]

lemma foldl_specStep_length (w h x y : Nat) :
    ∀ (offs : List (Int × Int)) (acc : List ((Nat × Nat) × Nat)),
    (∀ off ∈ offs, ∀ nxy, validOffsetPos w h x y off = some nxy →
      nxy ∉ acc.map Prod.fst) →
    (∀ off1 ∈ offs, ∀ off2 ∈ offs, off1 ≠ off2 →
      ∀ n1 n2, validOffsetPos w h x y off1 = some n1 →
        validOffsetPos w h x y off2 = some n2 → n1 ≠ n2) →
    offs.Nodup →
    (offs.foldl (neighborSpecStep w h x y) acc).length =
      acc.length + offs.countP (fun off => (validOffsetPos w h x y off).isSome) := by
  intro offs
  induction offs with
  | nil => intro acc _ _ _; simp
  | cons off t ih =>
    intro acc hfresh hpair hnd
    rw [List.nodup_cons] at hnd
    cases hv : validOffsetPos w h x y off with
    | none =>
      have h1 : neighborSpecStep w h x y acc off = acc := by
        unfold neighborSpecStep
        rw [hv]
      rw [List.foldl_cons, h1,
        ih acc (fun o ho n hn => hfresh o (List.mem_cons_of_mem off ho) n hn)
          (fun o1 h1 o2 h2 => hpair o1 (List.mem_cons_of_mem off h1)
            o2 (List.mem_cons_of_mem off h2)) hnd.2,
        List.countP_cons]
      simp [hv]
    | some nxy =>
      have hfr : nxy ∉ acc.map Prod.fst := hfresh off (List.mem_cons_self off t) nxy hv
      have h1 : neighborSpecStep w h x y acc off =
          acc ++ [(nxy, posId h nxy.1 nxy.2)] := by
        unfold neighborSpecStep
        rw [hv]
        exact insertAssoc_of_fresh acc nxy _ hfr
      have hfresh2 : ∀ o ∈ t, ∀ n, validOffsetPos w h x y o = some n →
          n ∉ (acc ++ [(nxy, posId h nxy.1 nxy.2)]).map Prod.fst := by
        intro o ho n hn hmem
        rw [List.map_append, List.mem_append] at hmem
        rcases hmem with hm | hm
        · exact hfresh o (List.mem_cons_of_mem off ho) n hn hm
        · have hne : o ≠ off := fun he => hnd.1 (he ▸ ho)
          have : n = nxy := by simpa using hm
          exact hpair o (List.mem_cons_of_mem off ho) off (List.mem_cons_self off t)
            hne n nxy hn hv this
      rw [List.foldl_cons, h1,
        ih _ hfresh2
          (fun o1 h1 o2 h2 => hpair o1 (List.mem_cons_of_mem off h1)
            o2 (List.mem_cons_of_mem off h2)) hnd.2,
        List.countP_cons]
      simp [hv]
      omega

lemma neighborEntries_length (w h x y : Nat) :
    (neighborEntries w h x y).length =
      neighbor_offsets.countP (fun off => (validOffsetPos w h x y off).isSome) := by
  unfold neighborEntries
  have hpair : ∀ off1 ∈ neighbor_offsets, ∀ off2 ∈ neighbor_offsets, off1 ≠ off2 →
      ∀ n1 n2, validOffsetPos w h x y off1 = some n1 →
        validOffsetPos w h x y off2 = some n2 → n1 ≠ n2 := by
    intro off1 _ off2 _ hne n1 n2 hv1 hv2 heq
    obtain ⟨a1, b1, _, _⟩ := validOffsetPos_some_elim w h x y off1 n1 hv1
    obtain ⟨a2, b2, _, _⟩ := validOffsetPos_some_elim w h x y off2 n2 hv2
    rw [heq] at a1 b1
    exact hne (Prod.ext_iff.mpr ⟨by omega, by omega⟩)
  have := foldl_specStep_length w h x y neighbor_offsets []
    (fun off _ nxy _ => by simp) hpair (by decide)
  simpa using this

lemma count_interior (w h x y : Nat) (hw : w < 2 ^ 64) (hh : h < 2 ^ 64)
    (h1 : 1 ≤ x) (h2 : x + 1 < w) (h3 : 1 ≤ y) (h4 : y + 1 < h) :
    (neighborEntries w h x y).length = 8 := by
  rw [neighborEntries_length]
  have e1 := validB_true w h x y (-1) (-1) hw hh (by omega)
  have e2 := validB_true w h x y 0 (-1) hw hh (by omega)
  have e3 := validB_true w h x y 1 (-1) hw hh (by omega)
  have e4 := validB_true w h x y (-1) 0 hw hh (by omega)
  have e5 := validB_true w h x y 1 0 hw hh (by omega)
  have e6 := validB_true w h x y (-1) 1 hw hh (by omega)
  have e7 := validB_true w h x y 0 1 hw hh (by omega)
  have e8 := validB_true w h x y 1 1 hw hh (by omega)
  simp only [neighbor_offsets, List.countP_cons, List.countP_nil, e1, e2, e3, e4, e5, e6, e7, e8]
  decide

lemma count_corner_ll (w h x y : Nat) (hw : w < 2 ^ 64) (hh : h < 2 ^ 64)
    (hw2 : 2 ≤ w) (hh2 : 2 ≤ h) (hx : x = 0) (hy : y = 0) :
    (neighborEntries w h x y).length = 3 := by
  rw [neighborEntries_length]
  have e1 := validB_false w h x y (-1) (-1) hw hh (by omega)
  have e2 := validB_false w h x y 0 (-1) hw hh (by omega)
  have e3 := validB_false w h x y 1 (-1) hw hh (by omega)
  have e4 := validB_false w h x y (-1) 0 hw hh (by omega)
  have e5 := validB_true w h x y 1 0 hw hh (by omega)
  have e6 := validB_false w h x y (-1) 1 hw hh (by omega)
  have e7 := validB_true w h x y 0 1 hw hh (by omega)
  have e8 := validB_true w h x y 1 1 hw hh (by omega)
  simp only [neighbor_offsets, List.countP_cons, List.countP_nil, e1, e2, e3, e4, e5, e6, e7, e8]
  decide

lemma count_corner_lh (w h x y : Nat) (hw : w < 2 ^ 64) (hh : h < 2 ^ 64)
    (hw2 : 2 ≤ w) (hh2 : 2 ≤ h) (hx : x = 0) (hy : y = h - 1) :
    (neighborEntries w h x y).length = 3 := by
  rw [neighborEntries_length]
  have e1 := validB_false w h x y (-1) (-1) hw hh (by omega)
  have e2 := validB_true w h x y 0 (-1) hw hh (by omega)
  have e3 := validB_true w h x y 1 (-1) hw hh (by omega)
  have e4 := validB_false w h x y (-1) 0 hw hh (by omega)
  have e5 := validB_true w h x y 1 0 hw hh (by omega)
  have e6 := validB_false w h x y (-1) 1 hw hh (by omega)
  have e7 := validB_false w h x y 0 1 hw hh (by omega)
  have e8 := validB_false w h x y 1 1 hw hh (by omega)
  simp only [neighbor_offsets, List.countP_cons, List.countP_nil, e1, e2, e3, e4, e5, e6, e7, e8]
  decide

lemma count_corner_hl (w h x y : Nat) (hw : w < 2 ^ 64) (hh : h < 2 ^ 64)
    (hw2 : 2 ≤ w) (hh2 : 2 ≤ h) (hx : x = w - 1) (hy : y = 0) :
    (neighborEntries w h x y).length = 3 := by
  rw [neighborEntries_length]
  have e1 := validB_false w h x y (-1) (-1) hw hh (by omega)
  have e2 := validB_false w h x y 0 (-1) hw hh (by omega)
  have e3 := validB_false w h x y 1 (-1) hw hh (by omega)
  have e4 := validB_true w h x y (-1) 0 hw hh (by omega)
  have e5 := validB_false w h x y 1 0 hw hh (by omega)
  have e6 := validB_true w h x y (-1) 1 hw hh (by omega)
  have e7 := validB_true w h x y 0 1 hw hh (by omega)
  have e8 := validB_false w h x y 1 1 hw hh (by omega)
  simp only [neighbor_offsets, List.countP_cons, List.countP_nil, e1, e2, e3, e4, e5, e6, e7, e8]
  decide

lemma count_corner_hh (w h x y : Nat) (hw : w < 2 ^ 64) (hh : h < 2 ^ 64)
    (hw2 : 2 ≤ w) (hh2 : 2 ≤ h) (hx : x = w - 1) (hy : y = h - 1) :
    (neighborEntries w h x y).length = 3 := by
  rw [neighborEntries_length]
  have e1 := validB_true w h x y (-1) (-1) hw hh (by omega)
  have e2 := validB_true w h x y 0 (-1) hw hh (by omega)
  have e3 := validB_false w h x y 1 (-1) hw hh (by omega)
  have e4 := validB_true w h x y (-1) 0 hw hh (by omega)
  have e5 := validB_false w h x y 1 0 hw hh (by omega)
  have e6 := validB_false w h x y (-1) 1 hw hh (by omega)
  have e7 := validB_false w h x y 0 1 hw hh (by omega)
  have e8 := validB_false w h x y 1 1 hw hh (by omega)
  simp only [neighbor_offsets, List.countP_cons, List.countP_nil, e1, e2, e3, e4, e5, e6, e7, e8]
  decide

lemma count_edge_left (w h x y : Nat) (hw : w < 2 ^ 64) (hh : h < 2 ^ 64)
    (hw2 : 2 ≤ w) (hx : x = 0) (h3 : 1 ≤ y) (h4 : y + 1 < h) :
    (neighborEntries w h x y).length = 5 := by
  rw [neighborEntries_length]
  have e1 := validB_false w h x y (-1) (-1) hw hh (by omega)
  have e2 := validB_true w h x y 0 (-1) hw hh (by omega)
  have e3 := validB_true w h x y 1 (-1) hw hh (by omega)
  have e4 := validB_false w h x y (-1) 0 hw hh (by omega)
  have e5 := validB_true w h x y 1 0 hw hh (by omega)
  have e6 := validB_false w h x y (-1) 1 hw hh (by omega)
  have e7 := validB_true w h x y 0 1 hw hh (by omega)
  have e8 := validB_true w h x y 1 1 hw hh (by omega)
  simp only [neighbor_offsets, List.countP_cons, List.countP_nil, e1, e2, e3, e4, e5, e6, e7, e8]
  decide

lemma count_edge_right (w h x y : Nat) (hw : w < 2 ^ 64) (hh : h < 2 ^ 64)
    (hw2 : 2 ≤ w) (hx : x = w - 1) (h3 : 1 ≤ y) (h4 : y + 1 < h) :
    (neighborEntries w h x y).length = 5 := by
  rw [neighborEntries_length]
  have e1 := validB_true w h x y (-1) (-1) hw hh (by omega)
  have e2 := validB_true w h x y 0 (-1) hw hh (by omega)
  have e3 := validB_false w h x y 1 (-1) hw hh (by omega)
  have e4 := validB_true w h x y (-1) 0 hw hh (by omega)
  have e5 := validB_false w h x y 1 0 hw hh (by omega)
  have e6 := validB_true w h x y (-1) 1 hw hh (by omega)
  have e7 := validB_true w h x y 0 1 hw hh (by omega)
  have e8 := validB_false w h x y 1 1 hw hh (by omega)
  simp only [neighbor_offsets, List.countP_cons, List.countP_nil, e1, e2, e3, e4, e5, e6, e7, e8]
  decide

lemma count_edge_top (w h x y : Nat) (hw : w < 2 ^ 64) (hh : h < 2 ^ 64)
    (hh2 : 2 ≤ h) (hy : y = 0) (h1 : 1 ≤ x) (h2 : x + 1 < w) :
    (neighborEntries w h x y).length = 5 := by
  rw [neighborEntries_length]
  have e1 := validB_false w h x y (-1) (-1) hw hh (by omega)
  have e2 := validB_false w h x y 0 (-1) hw hh (by omega)
  have e3 := validB_false w h x y 1 (-1) hw hh (by omega)
  have e4 := validB_true w h x y (-1) 0 hw hh (by omega)
  have e5 := validB_true w h x y 1 0 hw hh (by omega)
  have e6 := validB_true w h x y (-1) 1 hw hh (by omega)
  have e7 := validB_true w h x y 0 1 hw hh (by omega)
  have e8 := validB_true w h x y 1 1 hw hh (by omega)
  simp only [neighbor_offsets, List.countP_cons, List.countP_nil, e1, e2, e3, e4, e5, e6, e7, e8]
  decide

lemma count_edge_bottom (w h x y : Nat) (hw : w < 2 ^ 64) (hh : h < 2 ^ 64)
    (hh2 : 2 ≤ h) (hy : y = h - 1) (h1 : 1 ≤ x) (h2 : x + 1 < w) :
    (neighborEntries w h x y).length = 5 := by
  rw [neighborEntries_length]
  have e1 := validB_true w h x y (-1) (-1) hw hh (by omega)
  have e2 := validB_true w h x y 0 (-1) hw hh (by omega)
  have e3 := validB_true w h x y 1 (-1) hw hh (by omega)
  have e4 := validB_true w h x y (-1) 0 hw hh (by omega)
  have e5 := validB_true w h x y 1 0 hw hh (by omega)
  have e6 := validB_false w h x y (-1) 1 hw hh (by omega)
  have e7 := validB_false w h x y 0 1 hw hh (by omega)
  have e8 := validB_false w h x y 1 1 hw hh (by omega)
  simp only [neighbor_offsets, List.countP_cons, List.countP_nil, e1, e2, e3, e4, e5, e6, e7, e8]
  decide

lemma lookup_overwrite_self {κ β : Type} [DecidableEq κ] (m : List (κ × β)) (k : κ) (v : β) :
    lookupAssoc (m.map (fun p => if p.1 = k then (k, v) else p)) k =
      if (m.find? (fun p => decide (p.1 = k))).isSome then some v else none := by
  induction m with
  | nil => rfl
  | cons a t ih =>
    by_cases h : a.1 = k
    · rw [List.map_cons, if_pos h]
      unfold lookupAssoc
      rw [List.find?_cons_of_pos _ (by simp), List.find?_cons_of_pos _ (by simp [h])]
      simp
    · rw [List.map_cons, if_neg h]
      unfold lookupAssoc at ih ⊢
      rw [List.find?_cons_of_neg _ (by simp [h]), List.find?_cons_of_neg _ (by simp [h])]
      exact ih

lemma lookup_overwrite_other {κ β : Type} [DecidableEq κ] (m : List (κ × β)) (k : κ) (v : β)
    (k' : κ) (hne : k' ≠ k) :
    lookupAssoc (m.map (fun p => if p.1 = k then (k, v) else p)) k' = lookupAssoc m k' := by
  induction m with
  | nil => rfl
  | cons a t ih =>
    by_cases h : a.1 = k
    · rw [List.map_cons, if_pos h]
      unfold lookupAssoc at ih ⊢
      rw [List.find?_cons_of_neg _ (by simp; exact fun he => hne he.symm),
        List.find?_cons_of_neg _ (by simp [h]; exact fun he => hne he.symm)]
      exact ih
    · rw [List.map_cons, if_neg h]
      by_cases h2 : a.1 = k'
      · unfold lookupAssoc
        rw [List.find?_cons_of_pos _ (by simp [h2]), List.find?_cons_of_pos _ (by simp [h2])]
      · unfold lookupAssoc at ih ⊢
        rw [List.find?_cons_of_neg _ (by simp [h2]), List.find?_cons_of_neg _ (by simp [h2])]
        exact ih

lemma lookup_append_single {κ β : Type} [DecidableEq κ] (m : List (κ × β)) (k : κ) (v : β)
    (k' : κ) :
    lookupAssoc (m ++ [(k, v)]) k' =
      match lookupAssoc m k' with
      | some v2 => some v2
      | none => if k' = k then some v else none := by
  induction m with
  | nil =>
    show lookupAssoc [(k, v)] k' = _
    unfold lookupAssoc
    by_cases h : k = k'
    · rw [List.find?_cons_of_pos _ (by simp [h])]
      subst h
      simp
    · rw [List.find?_cons_of_neg _ (by simp [h])]
      show (none : Option β) = if k' = k then some v else none
      rw [if_neg (fun he => h he.symm)]
  | cons a t ih =>
    by_cases h : a.1 = k'
    · unfold lookupAssoc
      rw [List.cons_append, List.find?_cons_of_pos _ (by simp [h]),
        List.find?_cons_of_pos _ (by simp [h])]
      simp
    · unfold lookupAssoc at ih ⊢
      rw [List.cons_append, List.find?_cons_of_neg _ (by simp [h]),
        List.find?_cons_of_neg _ (by simp [h])]
      exact ih

lemma lookup_eq_none_of_not_isSome {κ β : Type} [DecidableEq κ] (m : List (κ × β)) (k : κ)
    (h : ¬ (m.find? (fun p => decide (p.1 = k))).isSome = true) :
    lookupAssoc m k = none := by
  unfold lookupAssoc
  cases hf : m.find? (fun p => decide (p.1 = k)) with
  | none => rfl
  | some q => rw [hf] at h; simp at h

lemma lookup_insertAssoc {κ β : Type} [DecidableEq κ] (m : List (κ × β)) (k : κ) (v : β)
    (k' : κ) :
    lookupAssoc (insertAssoc m k v) k' = if k' = k then some v else lookupAssoc m k' := by
  unfold insertAssoc
  split_ifs with hp hk hk
  · rw [hk, lookup_overwrite_self, if_pos hp]
  · exact lookup_overwrite_other m k v k' hk
  · rw [lookup_append_single, hk, lookup_eq_none_of_not_isSome m k hp]
    simp
  · rw [lookup_append_single]
    cases lookupAssoc m k' with
    | some v2 => rfl
    | none => simp [hk]

lemma lookup_posFold (h0 : Nat) :
    ∀ (L : List (Nat × Nat)) (m : List ((Nat × Nat) × Nat)) (k : Nat × Nat),
    lookupAssoc (posFold h0 L m) k =
      if k ∈ L then some (posId h0 k.1 k.2) else lookupAssoc m k := by
  intro L
  induction L with
  | nil => intro m k; simp [posFold]
  | cons c t ih =>
    intro m k
    have hstep : posFold h0 (c :: t) m =
        posFold h0 t (insertAssoc m c (posId h0 c.1 c.2)) := rfl
    rw [hstep, ih, lookup_insertAssoc]
    by_cases h1 : k ∈ t
    · rw [if_pos h1, if_pos (List.mem_cons_of_mem c h1)]
    · rw [if_neg h1]
      by_cases h2 : k = c
      · rw [if_pos h2, if_pos (by rw [h2]; exact List.mem_cons_self c t), h2]
      · rw [if_neg h2, if_neg (by
          intro hm
          rcases List.mem_cons.mp hm with he | hm2
          · exact h2 he
          · exact h1 hm2)]

lemma fillFold_cells (h0 : Nat) :
    ∀ (L : List (Nat × Nat)) (s : Board),
    (∀ xy ∈ L, posId h0 xy.1 xy.2 ∉ s.cells.map Prod.fst) →
    (L.map (fun xy => posId h0 xy.1 xy.2)).Nodup →
    (fillFold h0 L s).cells = s.cells ++ L.map (fun xy =>
      (posId h0 xy.1 xy.2, Cell.new false xy.1 xy.2 (posId h0 xy.1 xy.2))) := by
  intro L
  induction L with
  | nil => intro s _ _; simp [fillFold]
  | cons c t ih =>
    intro s hfresh hnd
    rw [List.map_cons, List.nodup_cons] at hnd
    have hcells2 : (Board.add_cell
        { s with position_to_id := insertAssoc s.position_to_id c (posId h0 c.1 c.2) }
        (Cell.new false c.1 c.2 (posId h0 c.1 c.2))).cells =
        s.cells ++ [(posId h0 c.1 c.2, Cell.new false c.1 c.2 (posId h0 c.1 c.2))] :=
      insertAssoc_of_fresh s.cells (posId h0 c.1 c.2) _ (hfresh c (List.mem_cons_self c t))
    have hstep : fillFold h0 (c :: t) s = fillFold h0 t
        (Board.add_cell
          { s with position_to_id := insertAssoc s.position_to_id c (posId h0 c.1 c.2) }
          (Cell.new false c.1 c.2 (posId h0 c.1 c.2))) := rfl
    have hfresh2 : ∀ xy ∈ t, posId h0 xy.1 xy.2 ∉
        ((Board.add_cell
          { s with position_to_id := insertAssoc s.position_to_id c (posId h0 c.1 c.2) }
          (Cell.new false c.1 c.2 (posId h0 c.1 c.2))).cells).map Prod.fst := by
      intro xy hxy hmem
      rw [hcells2, List.map_append, List.mem_append] at hmem
      rcases hmem with hm | hm
      · exact hfresh xy (List.mem_cons_of_mem c hxy) hm
      · have he : posId h0 xy.1 xy.2 = posId h0 c.1 c.2 := by simpa using hm
        exact hnd.1 (he ▸ List.mem_map_of_mem (fun xy => posId h0 xy.1 xy.2) hxy)
    rw [hstep, ih _ hfresh2 hnd.2, hcells2, List.append_assoc, List.singleton_append,
      List.map_cons]

lemma fillFold_pos (h0 : Nat) :
    ∀ (L : List (Nat × Nat)) (s : Board),
    (fillFold h0 L s).position_to_id = posFold h0 L s.position_to_id := by
  intro L
  induction L with
  | nil => intro s; rfl
  | cons c t ih =>
    intro s
    exact ih (Board.add_cell
      { s with position_to_id := insertAssoc s.position_to_id c (posId h0 c.1 c.2) }
      (Cell.new false c.1 c.2 (posId h0 c.1 c.2)))

lemma fillFold_misc (h0 : Nat) :
    ∀ (L : List (Nat × Nat)) (s : Board),
    (fillFold h0 L s).width = s.width ∧ (fillFold h0 L s).height = s.height ∧
      (fillFold h0 L s).generation = s.generation := by
  intro L
  induction L with
  | nil => intro s; exact ⟨rfl, rfl, rfl⟩
  | cons c t ih =>
    intro s
    exact ih (Board.add_cell
      { s with position_to_id := insertAssoc s.position_to_id c (posId h0 c.1 c.2) }
      (Cell.new false c.1 c.2 (posId h0 c.1 c.2)))

lemma find_map_of_mem {α κ β : Type} [DecidableEq κ] (l : List α) (g : α → κ × β)
    (a0 : α) (h0 : a0 ∈ l) (huniq : ∀ a ∈ l, (g a).1 = (g a0).1 → g a = g a0) :
    (l.map g).find? (fun p => decide (p.1 = (g a0).1)) = some (g a0) := by
  induction l with
  | nil => simp at h0
  | cons a t ih =>
    by_cases h : (g a).1 = (g a0).1
    · rw [List.map_cons, List.find?_cons_of_pos _ (by simp [h]),
        huniq a (List.mem_cons_self a t) h]
    · have h0t : a0 ∈ t := by
        rcases List.mem_cons.mp h0 with he | hm
        · exact absurd (by rw [he]) h
        · exact hm
      rw [List.map_cons, List.find?_cons_of_neg _ (by simp [h]),
        ih h0t (fun a2 ha2 hk => huniq a2 (List.mem_cons_of_mem a ha2) hk)]

lemma pid_inj_on_grid (w h : Nat) (a xy : Nat × Nat) (ha : a ∈ gridCoords w h)
    (hxy : xy ∈ gridCoords w h) (he : posId h a.1 a.2 = posId h xy.1 xy.2) : a = xy := by
  have h1 := (mem_gridCoords w h a).mp ha
  have h2 := (mem_gridCoords w h xy).mp hxy
  obtain ⟨e1, e2⟩ := posId_inj h a.1 a.2 xy.1 xy.2 h1.2 h2.2 he
  exact Prod.ext_iff.mpr ⟨e1, e2⟩

lemma get_cell_builtBoardWith (w h g0 : Nat) (P : List ((Nat × Nat) × Nat))
    (S : List (Nat × Nat)) (xy0 : Nat × Nat) (nb : List ((Nat × Nat) × Nat))
    (xy : Nat × Nat) (hxy : xy ∈ gridCoords w h) :
    (builtBoardWith w h g0 P S xy0 nb).get_cell (posId h xy.1 xy.2) =
      some (if xy = xy0 then { builtCellVal w h S xy with neighbors := nb }
        else builtCellVal w h S xy) := by
  have hfind := find_map_of_mem (gridCoords w h) (builtWithFn w h S xy0 nb) xy hxy
    (fun a ha hk => by rw [pid_inj_on_grid w h a xy ha hxy hk])
  exact congrArg (Option.map (fun p => p.2)) hfind

lemma updateCell_add_builtBoardWith (w h g0 : Nat) (P : List ((Nat × Nat) × Nat))
    (S : List (Nat × Nat)) (xy0 : Nat × Nat) (nb : List ((Nat × Nat) × Nat))
    (nxy : Nat × Nat) (nid : Nat) (hxy0 : xy0 ∈ gridCoords w h) :
    (builtBoardWith w h g0 P S xy0 nb).updateCell (posId h xy0.1 xy0.2)
      (fun c => c.add_neighbor nxy.1 nxy.2 nid) =
    builtBoardWith w h g0 P S xy0 (insertAssoc nb (nxy.1, nxy.2) nid) := by
  unfold Board.updateCell builtBoardWith
  congr 1
  rw [List.map_map]
  apply map_congr_mem
  intro a ha
  by_cases hax : a = xy0
  · subst hax
    simp [builtWithFn, Cell.add_neighbor]
  · have hne : posId h a.1 a.2 ≠ posId h xy0.1 xy0.2 :=
      fun he => hax (pid_inj_on_grid w h a xy0 ha hxy0 he)
    simp [builtWithFn, hne, hax]

lemma registerStep_char (w h g0 : Nat) (P : List ((Nat × Nat) × Nat))
    (S : List (Nat × Nat)) (xy0 : Nat × Nat) (hxy0 : xy0 ∈ gridCoords w h)
    (HP : ∀ xy ∈ gridCoords w h, lookupAssoc P xy = some (posId h xy.1 xy.2))
    (nb : List ((Nat × Nat) × Nat)) (off : Int × Int) :
    Board.registerNeighborStep w h (posId h xy0.1 xy0.2) xy0.1 xy0.2
      (builtBoardWith w h g0 P S xy0 nb) off =
    builtBoardWith w h g0 P S xy0 (neighborSpecStep w h xy0.1 xy0.2 nb off) := by
  cases hv : validOffsetPos w h xy0.1 xy0.2 off with
  | none => simp only [Board.registerNeighborStep, neighborSpecStep, hv]
  | some nxy =>
    have hnxy : nxy ∈ gridCoords w h := by
      obtain ⟨_, _, h3, h4⟩ := validOffsetPos_some_elim w h xy0.1 xy0.2 off nxy hv
      exact (mem_gridCoords w h nxy).mpr ⟨h3, h4⟩
    have hpl : (builtBoardWith w h g0 P S xy0 nb).posLookup nxy =
        some (posId h nxy.1 nxy.2) := HP nxy hnxy
    have hgc := get_cell_builtBoardWith w h g0 P S xy0 nb nxy hnxy
    simp only [Board.registerNeighborStep, neighborSpecStep, hv, hpl, hgc]
    exact updateCell_add_builtBoardWith w h g0 P S xy0 nb nxy
      (posId h nxy.1 nxy.2) hxy0

lemma innerFold_char (w h g0 : Nat) (P : List ((Nat × Nat) × Nat))
    (S : List (Nat × Nat)) (xy0 : Nat × Nat) (hxy0 : xy0 ∈ gridCoords w h)
    (HP : ∀ xy ∈ gridCoords w h, lookupAssoc P xy = some (posId h xy.1 xy.2)) :
    ∀ (offs : List (Int × Int)) (nb : List ((Nat × Nat) × Nat)),
    offs.foldl (Board.registerNeighborStep w h (posId h xy0.1 xy0.2) xy0.1 xy0.2)
      (builtBoardWith w h g0 P S xy0 nb) =
    builtBoardWith w h g0 P S xy0 (offs.foldl (neighborSpecStep w h xy0.1 xy0.2) nb) := by
  intro offs
  induction offs with
  | nil => intro nb; rfl
  | cons off t ih =>
    intro nb
    rw [List.foldl_cons, List.foldl_cons,
      registerStep_char w h g0 P S xy0 hxy0 HP nb off]
    exact ih _

lemma builtBoard_eq_with (w h g0 : Nat) (P : List ((Nat × Nat) × Nat))
    (S : List (Nat × Nat)) (xy0 : Nat × Nat) (hns : xy0 ∉ S) :
    builtBoard w h g0 P S = builtBoardWith w h g0 P S xy0 [] := by
  unfold builtBoard builtBoardWith
  congr 1
  apply map_congr_mem
  intro a ha
  unfold builtFn builtWithFn
  by_cases hax : a = xy0
  · subst hax
    simp [builtCellVal, hns]
  · simp [hax]

lemma builtBoardWith_done (w h g0 : Nat) (P : List ((Nat × Nat) × Nat))
    (S : List (Nat × Nat)) (xy0 : Nat × Nat) :
    builtBoardWith w h g0 P S xy0 (neighborEntries w h xy0.1 xy0.2) =
      builtBoard w h g0 P (xy0 :: S) := by
  unfold builtBoard builtBoardWith
  congr 1
  apply map_congr_mem
  intro a ha
  unfold builtFn builtWithFn
  by_cases hax : a = xy0
  · subst hax
    simp [builtCellVal, List.mem_cons]
  · simp [hax, builtCellVal, List.mem_cons]

lemma addNeighborsAt_char (w h g0 : Nat) (P : List ((Nat × Nat) × Nat))
    (HP : ∀ xy ∈ gridCoords w h, lookupAssoc P xy = some (posId h xy.1 xy.2))
    (S : List (Nat × Nat)) (xy0 : Nat × Nat)
    (hxy0 : xy0 ∈ gridCoords w h) (hns : xy0 ∉ S) :
    Board.addNeighborsAt w h (builtBoard w h g0 P S) xy0 =
      builtBoard w h g0 P (xy0 :: S) := by
  rw [builtBoard_eq_with w h g0 P S xy0 hns]
  have hpl : (builtBoardWith w h g0 P S xy0 []).posLookup xy0 =
      some (posId h xy0.1 xy0.2) := HP xy0 hxy0
  have hgc := get_cell_builtBoardWith w h g0 P S xy0 [] xy0 hxy0
  simp only [Board.addNeighborsAt, hpl, hgc]
  rw [innerFold_char w h g0 P S xy0 hxy0 HP neighbor_offsets []]
  exact builtBoardWith_done w h g0 P S xy0

lemma computeNeighborsFold_char (w h g0 : Nat) (P : List ((Nat × Nat) × Nat))
    (HP : ∀ xy ∈ gridCoords w h, lookupAssoc P xy = some (posId h xy.1 xy.2)) :
    ∀ (L S : List (Nat × Nat)),
    (∀ xy ∈ L, xy ∈ gridCoords w h) → (∀ xy ∈ L, xy ∉ S) → L.Nodup →
    L.foldl (Board.addNeighborsAt w h) (builtBoard w h g0 P S) =
      builtBoard w h g0 P (L.reverse ++ S) := by
  intro L
  induction L with
  | nil => intro S _ _ _; simp
  | cons c t ih =>
    intro S hgrid hdisj hnd
    rw [List.nodup_cons] at hnd
    rw [List.foldl_cons,
      addNeighborsAt_char w h g0 P HP S c (hgrid c (List.mem_cons_self c t))
        (hdisj c (List.mem_cons_self c t)),
      ih (c :: S) (fun xy hxy => hgrid xy (List.mem_cons_of_mem c hxy))
        (fun xy hxy hm => by
          rcases List.mem_cons.mp hm with he | hm2
          · exact hnd.1 (he ▸ hxy)
          · exact hdisj xy (List.mem_cons_of_mem c hxy) hm2) hnd.2,
      List.reverse_cons, List.append_assoc, List.singleton_append]

/-- `create_board` yields exactly the filled grid with every cell's
adjacency map built. -/
lemma create_board_char (b0 : Board) (w h : Nat) :
    b0.create_board w h =
      builtBoard w h 0 (posFold h (gridCoords w h) b0.position_to_id)
        ((gridCoords w h).reverse) := by
  have HP : ∀ xy ∈ gridCoords w h,
      lookupAssoc (posFold h (gridCoords w h) b0.position_to_id) xy =
        some (posId h xy.1 xy.2) := by
    intro xy hxy
    rw [lookup_posFold h (gridCoords w h) b0.position_to_id xy, if_pos hxy]
  have hfill : ((b0.reset).set_size w h).fill_cells =
      builtBoard w h 0 (posFold h (gridCoords w h) b0.position_to_id) [] := by
    have hb2 : (b0.reset).set_size w h = Board.mk w h 0 [] b0.position_to_id := rfl
    rw [hb2]
    have hf : (Board.mk w h 0 [] b0.position_to_id).fill_cells =
        fillFold h (gridCoords w h) (Board.mk w h 0 [] b0.position_to_id) := rfl
    rw [hf]
    obtain ⟨hw2, hh2, hg2⟩ :=
      fillFold_misc h (gridCoords w h) (Board.mk w h 0 [] b0.position_to_id)
    have hcells := fillFold_cells h (gridCoords w h)
      (Board.mk w h 0 [] b0.position_to_id) (by simp) (nodup_pid_grid w h)
    have hpos := fillFold_pos h (gridCoords w h) (Board.mk w h 0 [] b0.position_to_id)
    have heta : fillFold h (gridCoords w h) (Board.mk w h 0 [] b0.position_to_id) =
        Board.mk
          (fillFold h (gridCoords w h) (Board.mk w h 0 [] b0.position_to_id)).width
          (fillFold h (gridCoords w h) (Board.mk w h 0 [] b0.position_to_id)).height
          (fillFold h (gridCoords w h) (Board.mk w h 0 [] b0.position_to_id)).generation
          (fillFold h (gridCoords w h) (Board.mk w h 0 [] b0.position_to_id)).cells
          (fillFold h (gridCoords w h)
            (Board.mk w h 0 [] b0.position_to_id)).position_to_id := rfl
    rw [heta, hw2, hh2, hg2, hcells, hpos]
    unfold builtBoard
    congr 1
  unfold Board.create_board
  rw [hfill]
  have hcn : (builtBoard w h 0 (posFold h (gridCoords w h) b0.position_to_id)
        []).compute_neighbors =
      (gridCoords w h).foldl (Board.addNeighborsAt w h)
        (builtBoard w h 0 (posFold h (gridCoords w h) b0.position_to_id) []) := rfl
  rw [hcn,
    computeNeighborsFold_char w h 0 (posFold h (gridCoords w h) b0.position_to_id) HP
      (gridCoords w h) [] (fun xy hxy => hxy) (fun xy _ hm => by simp at hm)
      (nodup_gridCoords w h),
    List.append_nil]

/-- C4, counterexample to the claim as stated: on the built 1 × 1 grid the
only cell is a corner cell (its coordinates are 0 and width−1 / height−1)
yet it has 0 neighbor entries, not 3. -/
theorem createBoard_neighbor_counts_cex :
    ∃ p ∈ (Board.new.create_board 1 1).cells,
      (p.2.x = 0 ∨ p.2.x = 1 - 1) ∧ (p.2.y = 0 ∨ p.2.y = 1 - 1) ∧
        p.2.neighbors.length ≠ 3 := by decide

/-- C4 (amended): after `create_board width height` on a grid with
`2 ≤ width`, `2 ≤ height` (and both within the unsigned 64-bit range), every
interior cell has exactly 8 neighbor entries, every non-corner edge cell
exactly 5, and every corner cell exactly 3. -/
theorem createBoard_neighbor_counts (b0 : Board) (w h : Nat)
    (hw2 : 2 ≤ w) (hh2 : 2 ≤ h) (hw : w < 2 ^ 64) (hh : h < 2 ^ 64) :
    ∀ p ∈ (b0.create_board w h).cells,
      ((0 < p.2.x ∧ p.2.x < w - 1 ∧ 0 < p.2.y ∧ p.2.y < h - 1) →
        p.2.neighbors.length = 8) ∧
      ((((p.2.x = 0 ∨ p.2.x = w - 1) ∧ 0 < p.2.y ∧ p.2.y < h - 1) ∨
        ((p.2.y = 0 ∨ p.2.y = h - 1) ∧ 0 < p.2.x ∧ p.2.x < w - 1)) →
        p.2.neighbors.length = 5) ∧
      (((p.2.x = 0 ∨ p.2.x = w - 1) ∧ (p.2.y = 0 ∨ p.2.y = h - 1)) →
        p.2.neighbors.length = 3) := by
  intro p hp
  rw [create_board_char b0 w h] at hp
  have hp2 : p ∈ (gridCoords w h).map (builtFn w h ((gridCoords w h).reverse)) := hp
  obtain ⟨a, ha, hpa⟩ := List.mem_map.mp hp2
  have hbounds := (mem_gridCoords w h a).mp ha
  have hx : p.2.x = a.1 := by rw [← hpa]; rfl
  have hy : p.2.y = a.2 := by rw [← hpa]; rfl
  have hnb : p.2.neighbors = neighborEntries w h a.1 a.2 := by
    rw [← hpa]
    show (builtCellVal w h ((gridCoords w h).reverse) a).neighbors = _
    unfold builtCellVal
    rw [if_pos (List.mem_reverse.mpr ha)]
  rw [hx, hy, hnb]
  refine ⟨?_, ?_, ?_⟩
  · rintro ⟨h1, h2, h3, h4⟩
    exact count_interior w h a.1 a.2 hw hh (by omega) (by omega) (by omega) (by omega)
  · rintro (⟨hx0, h3, h4⟩ | ⟨hy0, h1, h2⟩)
    · rcases hx0 with he | he
      · exact count_edge_left w h a.1 a.2 hw hh hw2 he (by omega) (by omega)
      · exact count_edge_right w h a.1 a.2 hw hh hw2 he (by omega) (by omega)
    · rcases hy0 with he | he
      · exact count_edge_top w h a.1 a.2 hw hh hh2 he (by omega) (by omega)
      · exact count_edge_bottom w h a.1 a.2 hw hh hh2 he (by omega) (by omega)
  · rintro ⟨hx0, hy0⟩
    rcases hx0 with he1 | he1 <;> rcases hy0 with he2 | he2
    · exact count_corner_ll w h a.1 a.2 hw hh hw2 hh2 he1 he2
    · exact count_corner_lh w h a.1 a.2 hw hh hw2 hh2 he1 he2
    · exact count_corner_hl w h a.1 a.2 hw hh hw2 hh2 he1 he2
    · exact count_corner_hh w h a.1 a.2 hw hh hw2 hh2 he1 he2

/-- Witness for C4 on the built 3 × 3 grid: its corner cell `(0, 0)` has
exactly 3 neighbor entries. -/
theorem createBoard_neighbor_counts_witness :
    ((0 : Nat), cornerCell3) ∈ (Board.new.create_board 3 3).cells ∧
      cornerCell3.neighbors.length = 3 :=
  ⟨by decide,
    (createBoard_neighbor_counts Board.new 3 3 (by decide) (by decide) (by decide)
      (by decide) ((0 : Nat), cornerCell3) (by decide)).2.2 (by decide)⟩

/-- Witness for C8: on a 2 × 2 board, id 99 is unknown and the call returns
`(99, false)` with the board untouched. -/
theorem updateCellState_spec_witness :
    WF (Board.new.create_board 2 2) ∧
    update_cell_state (Board.new.create_board 2 2) 99 true =
      (Board.new.create_board 2 2, (99, false)) :=
  ⟨by decide, (updateCellState_spec (Board.new.create_board 2 2) 99 true
    (by decide)).1 (by decide)⟩

end GameOfLife
